import Mathlib

/-!
# The AutoSync echo driver: inverted-call notification broker

A shallow embedding of `driver/AutoSync/queue.c` and `driver/AutoSync/driver.c`.

The driver state is the pair of context structures of the source
(`DEVICE_CONTEXT`, `QUEUE_CONTEXT`).  The framework (KMDF) is not part of the
repository; the calls the driver makes into it are modelled by small total
functions that follow the documented contract of each call:

* a request is a value carrying its handle, the caller's input bytes, the
  caller's output buffer (its length is the capacity) and the information
  field set by `WdfRequestSetInformation`;
* every `WdfRequestComplete*` call appends one record to the log
  `World.Completed`, so "completed exactly once" is a statement about that log;
* buffer retrievals fail with `STATUS_BUFFER_TOO_SMALL` when the buffer is
  empty or shorter than the minimum size the driver asks for;
* the manual notification queue is a list in arrival order: forwarding appends
  at the tail, `WdfIoQueueRetrieveNextRequest` removes the head.
-/

namespace Shelby

/-! ## Status codes -/

/-- An `NTSTATUS` is a 32-bit code, kept as its unsigned value. -/
abbrev NTSTATUS := Nat

def STATUS_SUCCESS : NTSTATUS := 0x00000000
def STATUS_BUFFER_OVERFLOW : NTSTATUS := 0x80000005
def STATUS_NO_MORE_ENTRIES : NTSTATUS := 0x8000001A
def STATUS_UNSUCCESSFUL : NTSTATUS := 0xC0000001
def STATUS_INVALID_PARAMETER : NTSTATUS := 0xC000000D
def STATUS_INVALID_DEVICE_REQUEST : NTSTATUS := 0xC0000010
def STATUS_BUFFER_TOO_SMALL : NTSTATUS := 0xC0000023
def STATUS_CANCELLED : NTSTATUS := 0xC0000120
def STATUS_WDF_BUSY : NTSTATUS := 0xC0200204

/-- The macro `NT_SUCCESS(Status)` is `((NTSTATUS)(Status)) >= 0` on a signed
32-bit value: the top bit of the code is clear. -/
def NT_SUCCESS (Status : NTSTATUS) : Bool := Status % 2 ^ 32 < 2 ^ 31

/-! ## Constants of the source -/

/-- From `queue.h`: `#define MAX_WRITE_LENGTH 512`. -/
def MAX_WRITE_LENGTH : Nat := 512

/-- The value of `sizeof(LONG)` on Windows. -/
def sizeof_LONG : Nat := 4

/-- The value of `sizeof(ULONG)` on Windows. -/
def sizeof_ULONG : Nat := 4

/-- From `driver.c`: `#define FILE_DEVICE_INVERTED 0xCF54`. -/
def FILE_DEVICE_INVERTED : Nat := 0xCF54

def METHOD_BUFFERED : Nat := 0
def FILE_ANY_ACCESS : Nat := 0

/-- The macro `CTL_CODE(DeviceType, Function, Method, Access)` of the SDK. -/
def CTL_CODE (DeviceType Function Method Access : Nat) : Nat :=
  ((DeviceType <<< 16) ||| (Access <<< 14) ||| (Function <<< 2) ||| Method) % 2 ^ 32

def IOCTL_OSR_INVERT_NOTIFICATION : Nat :=
  CTL_CODE FILE_DEVICE_INVERTED 2049 METHOD_BUFFERED FILE_ANY_ACCESS

def IOCTL_ADD_READER : Nat :=
  CTL_CODE FILE_DEVICE_INVERTED 2050 METHOD_BUFFERED FILE_ANY_ACCESS

/-! ## Data model -/

/-- A framework request object.  `Handle` is the identity of the request;
`OutputBuffer` holds the current bytes of the caller's output buffer and its
length is the buffer's capacity. -/
structure WDFREQUEST where
  Handle : Nat
  InputBuffer : List Nat
  OutputBuffer : List Nat
  Information : Nat
  deriving DecidableEq, Repr

/-- One call of `WdfRequestComplete` / `WdfRequestCompleteWithInformation`:
the request as it was handed back, the status and the information field. -/
structure Completion where
  Request : WDFREQUEST
  Status : NTSTATUS
  Information : Nat
  deriving DecidableEq, Repr

/-- A manual framework queue: the parked requests in arrival order, and whether
the queue still accepts forwarded requests. -/
structure WDFQUEUE where
  Requests : List WDFREQUEST
  Accepting : Bool
  deriving DecidableEq, Repr

/-- The fields of `DEVICE_CONTEXT` (`device.h`) that the code reads or writes. -/
structure DEVICE_CONTEXT where
  PrivateDeviceData : Nat
  NotificationQueue : WDFQUEUE
  deriving DecidableEq, Repr

/-- The structure `QUEUE_CONTEXT` of `queue.h`; `Buffer = none` is `NULL`,
`CurrentRequest = none` is `NULL`. -/
structure QUEUE_CONTEXT where
  Buffer : Option (List Nat)
  Length : Nat
  CurrentRequest : Option WDFREQUEST
  CurrentStatus : NTSTATUS
  deriving DecidableEq, Repr

/-- The whole state: the two driver contexts and the framework bookkeeping the
driver relies on (requests marked cancelable, handles whose cancellation has
fired, and the log of completions). -/
structure World where
  deviceContext : DEVICE_CONTEXT
  queueContext : QUEUE_CONTEXT
  Cancelable : List WDFREQUEST
  Cancelled : List Nat
  Completed : List Completion
  deriving DecidableEq, Repr

/-! ## Framework calls -/

/-- `WdfRequestSetInformation(Request, Information)`. -/
def WdfRequestSetInformation (Request : WDFREQUEST) (Information : Nat) : WDFREQUEST :=
  { Request with Information := Information }

/-- `WdfRequestComplete(Request, Status)`: completes with the information
field the request currently carries. -/
def WdfRequestComplete (w : World) (Request : WDFREQUEST) (Status : NTSTATUS) : World :=
  { w with Completed := w.Completed ++ [⟨Request, Status, Request.Information⟩] }

/-- `WdfRequestCompleteWithInformation(Request, Status, Information)`. -/
def WdfRequestCompleteWithInformation (w : World) (Request : WDFREQUEST)
    (Status : NTSTATUS) (Information : Nat) : World :=
  WdfRequestComplete w (WdfRequestSetInformation Request Information) Status

/-- `WdfRequestRetrieveOutputBuffer(Request, MinimumRequiredSize, &Buffer, NULL)`:
`STATUS_BUFFER_TOO_SMALL` when the output buffer has length zero or is shorter
than `MinimumRequiredSize`. -/
def WdfRequestRetrieveOutputBuffer (Request : WDFREQUEST) (MinimumRequiredSize : Nat) :
    Except NTSTATUS (List Nat) :=
  if Request.OutputBuffer.length = 0 ∨ Request.OutputBuffer.length < MinimumRequiredSize then
    .error STATUS_BUFFER_TOO_SMALL
  else .ok Request.OutputBuffer

/-- `WdfRequestRetrieveInputBuffer(Request, MinimumRequiredSize, &Buffer, NULL)`. -/
def WdfRequestRetrieveInputBuffer (Request : WDFREQUEST) (MinimumRequiredSize : Nat) :
    Except NTSTATUS (List Nat) :=
  if Request.InputBuffer.length = 0 ∨ Request.InputBuffer.length < MinimumRequiredSize then
    .error STATUS_BUFFER_TOO_SMALL
  else .ok Request.InputBuffer

/-- `WdfRequestRetrieveInputMemory(Request, &Memory)`: fails when the input
buffer has length zero. -/
def WdfRequestRetrieveInputMemory (Request : WDFREQUEST) : Except NTSTATUS (List Nat) :=
  if Request.InputBuffer.length = 0 then .error STATUS_BUFFER_TOO_SMALL
  else .ok Request.InputBuffer

/-- `WdfRequestRetrieveOutputMemory(Request, &Memory)`: fails when the output
buffer has length zero. -/
def WdfRequestRetrieveOutputMemory (Request : WDFREQUEST) : Except NTSTATUS (List Nat) :=
  if Request.OutputBuffer.length = 0 then .error STATUS_BUFFER_TOO_SMALL
  else .ok Request.OutputBuffer

/-- `WdfMemoryCopyToBuffer(SourceMemory, SourceOffset, Buffer, NumBytesToCopyTo)`:
fails when the source memory does not hold `SourceOffset + NumBytesToCopyTo`
bytes; otherwise the first `NumBytesToCopyTo` bytes of `Buffer` are overwritten. -/
def WdfMemoryCopyToBuffer (SourceMemory : List Nat) (SourceOffset : Nat)
    (Buffer : List Nat) (NumBytesToCopyTo : Nat) : Except NTSTATUS (List Nat) :=
  if SourceMemory.length < SourceOffset + NumBytesToCopyTo then
    .error STATUS_BUFFER_TOO_SMALL
  else
    .ok ((SourceMemory.drop SourceOffset).take NumBytesToCopyTo ++ Buffer.drop NumBytesToCopyTo)

/-- `WdfMemoryCopyFromBuffer(DestinationMemory, DestinationOffset, Buffer,
NumBytesToCopyFrom)`: fails when the destination memory does not hold
`DestinationOffset + NumBytesToCopyFrom` bytes. -/
def WdfMemoryCopyFromBuffer (DestinationMemory : List Nat) (DestinationOffset : Nat)
    (Buffer : List Nat) (NumBytesToCopyFrom : Nat) : Except NTSTATUS (List Nat) :=
  if DestinationMemory.length < DestinationOffset + NumBytesToCopyFrom then
    .error STATUS_BUFFER_TOO_SMALL
  else
    .ok (DestinationMemory.take DestinationOffset ++ Buffer.take NumBytesToCopyFrom ++
      DestinationMemory.drop (DestinationOffset + NumBytesToCopyFrom))

/-- `WdfIoQueueRetrieveNextRequest(Queue, &Request)`: removes the oldest
request, or reports `STATUS_NO_MORE_ENTRIES` on an empty queue. -/
def WdfIoQueueRetrieveNextRequest (Queue : WDFQUEUE) : Except NTSTATUS (WDFREQUEST × WDFQUEUE) :=
  match Queue.Requests with
  | [] => .error STATUS_NO_MORE_ENTRIES
  | Request :: rest => .ok (Request, { Queue with Requests := rest })

/-- `WdfRequestForwardToIoQueue(Request, DestinationQueue)`: the request is
added at the tail, or `STATUS_WDF_BUSY` when the queue accepts no requests. -/
def WdfRequestForwardToIoQueue (Request : WDFREQUEST) (DestinationQueue : WDFQUEUE) :
    Except NTSTATUS WDFQUEUE :=
  if DestinationQueue.Accepting then
    .ok { DestinationQueue with Requests := DestinationQueue.Requests ++ [Request] }
  else .error STATUS_WDF_BUSY

/-- `WdfRequestMarkCancelable(Request, EchoEvtRequestCancel)`. -/
def WdfRequestMarkCancelable (w : World) (Request : WDFREQUEST) : World :=
  { w with Cancelable := w.Cancelable ++ [Request] }

/-- `WdfRequestUnmarkCancelable(Request)`: reports `STATUS_CANCELLED` exactly
when the cancellation of the request has fired (its cancel callback has run or
is about to run); otherwise the request stops being cancelable. -/
def WdfRequestUnmarkCancelable (w : World) (Request : WDFREQUEST) : NTSTATUS × World :=
  if Request.Handle ∈ w.Cancelled then (STATUS_CANCELLED, w)
  else (STATUS_SUCCESS,
    { w with Cancelable := w.Cancelable.filter (fun r => decide (r.Handle ≠ Request.Handle)) })

/-! ## queue.c -/

/-- `EchoQueueInitialize`: the state after the queues have been created. -/
def EchoQueueInitialize : World :=
  { deviceContext := { PrivateDeviceData := 0, NotificationQueue := ⟨[], true⟩ }
    queueContext :=
      { Buffer := none, Length := 0, CurrentRequest := none,
        CurrentStatus := STATUS_INVALID_DEVICE_REQUEST }
    Cancelable := []
    Cancelled := []
    Completed := [] }

/-- `EchoEvtRequestCancel(Request)`. -/
def EchoEvtRequestCancel (w : World) (Request : WDFREQUEST) : World :=
  let w := WdfRequestCompleteWithInformation w Request STATUS_CANCELLED 0
  { w with queueContext.CurrentRequest := none }

/-- `EchoEvtIoRead(Queue, Request, Length)`.  On the arming path `Status` is
the status the successful `WdfMemoryCopyFromBuffer` returned. -/
def EchoEvtIoRead (w : World) (Request : WDFREQUEST) (Length : Nat) : World :=
  match w.queueContext.Buffer with
  | none => WdfRequestCompleteWithInformation w Request STATUS_SUCCESS 0
  | some Buffer =>
    let Length := if w.queueContext.Length < Length then w.queueContext.Length else Length
    match WdfRequestRetrieveOutputMemory Request with
    | .error Status => WdfRequestCompleteWithInformation w Request Status 0
    | .ok memory =>
      match WdfMemoryCopyFromBuffer memory 0 Buffer Length with
      | .error Status => WdfRequestComplete w Request Status
      | .ok written =>
        let Status := STATUS_SUCCESS
        let Request := WdfRequestSetInformation { Request with OutputBuffer := written } Length
        let w := WdfRequestMarkCancelable w Request
        { w with queueContext.CurrentRequest := some Request
                 queueContext.CurrentStatus := Status }

/-- `InvertedNotify(DevContext, Memory, Length)`: the returned status and the
new state. -/
def InvertedNotify (w : World) (Memory : List Nat) (Length : Nat) : NTSTATUS × World :=
  match WdfIoQueueRetrieveNextRequest w.deviceContext.NotificationQueue with
  | .error status => (status, w)
  | .ok (notifyRequest, rest) =>
    let w := { w with deviceContext.NotificationQueue := rest }
    match WdfRequestRetrieveOutputBuffer notifyRequest Length with
    | .error _ =>
      let status := STATUS_SUCCESS
      let info := 0
      (status, WdfRequestCompleteWithInformation w notifyRequest status info)
    | .ok bufferPointer =>
      match WdfMemoryCopyToBuffer Memory 0 bufferPointer Length with
      | .error status => (status, w)
      | .ok written =>
        let status := STATUS_SUCCESS
        let info := Length
        (status, WdfRequestCompleteWithInformation w
          { notifyRequest with OutputBuffer := written } status info)

/-- The `do { ... } while (Status != STATUS_NO_MORE_ENTRIES)` loop of
`EchoEvtIoWrite` followed by the final `WdfRequestComplete`.  Each iteration
uses one unit of `fuel`; `none` means the fuel ran out before the loop ended. -/
def EchoEvtIoWriteLoop : Nat → World → WDFREQUEST → List Nat → Nat → Option World
  | 0, _, _, _, _ => none
  | fuel + 1, w, Request, memory, Length =>
    let (Status, w) := InvertedNotify w memory Length
    if Status = STATUS_NO_MORE_ENTRIES then
      let Status := STATUS_SUCCESS
      some (WdfRequestComplete w Request Status)
    else if !NT_SUCCESS Status then
      let Request := WdfRequestSetInformation Request Length
      some (WdfRequestComplete w Request Status)
    else EchoEvtIoWriteLoop fuel w Request memory Length

/-- `EchoEvtIoWrite(Queue, Request, Length)`.  The loop is given one more unit
of fuel than there are parked requests. -/
def EchoEvtIoWrite (w : World) (Request : WDFREQUEST) (Length : Nat) : Option World :=
  let w := { w with deviceContext.PrivateDeviceData := 0 }
  if Length > MAX_WRITE_LENGTH then
    some (WdfRequestCompleteWithInformation w Request STATUS_BUFFER_OVERFLOW 0)
  else
    match WdfRequestRetrieveInputMemory Request with
    | .error Status => some (WdfRequestComplete w Request Status)
    | .ok memory =>
      let Request := WdfRequestSetInformation Request Length
      EchoEvtIoWriteLoop (w.deviceContext.NotificationQueue.Requests.length + 1)
        w Request memory Length

/-- `EchoEvtTimerFunc(Timer)`. -/
def EchoEvtTimerFunc (w : World) : World :=
  match w.queueContext.CurrentRequest with
  | none => w
  | some Request =>
    let (Status, w) := WdfRequestUnmarkCancelable w Request
    if Status ≠ STATUS_CANCELLED then
      let w := { w with queueContext.CurrentRequest := none }
      let Status := w.queueContext.CurrentStatus
      WdfRequestComplete w Request Status
    else w

/-! ## driver.c -/

/-- `InvertedEvtIoDeviceControl(Queue, Request, OutputBufferLength,
InputBufferLength, IoControlCode)`. -/
def InvertedEvtIoDeviceControl (w : World) (Request : WDFREQUEST)
    (OutputBufferLength InputBufferLength IoControlCode : Nat) : World :=
  let status := STATUS_INVALID_PARAMETER
  let info := 0
  if IoControlCode = IOCTL_ADD_READER then
    if OutputBufferLength < sizeof_LONG then
      WdfRequestCompleteWithInformation w Request status info
    else
      let (status, Request) :=
        match WdfRequestRetrieveOutputBuffer Request (sizeof_ULONG * 2) with
        | .error _ => (STATUS_UNSUCCESSFUL, Request)
        | .ok bufferPointer =>
          (STATUS_SUCCESS,
            { Request with OutputBuffer := [0, 0, 0, 0] ++ [0, 0, 0, 0] ++ bufferPointer.drop 8 })
      let w := WdfRequestComplete w Request status
      if !NT_SUCCESS status then
        WdfRequestCompleteWithInformation w Request status info
      else w
  else if IoControlCode = IOCTL_OSR_INVERT_NOTIFICATION then
    if OutputBufferLength < sizeof_LONG then
      WdfRequestCompleteWithInformation w Request status info
    else if InputBufferLength < sizeof_ULONG * 2 then
      WdfRequestCompleteWithInformation w Request status info
    else
      let (_status, info) :=
        match WdfRequestRetrieveInputBuffer Request (sizeof_ULONG * 2) with
        | .error _ => (STATUS_UNSUCCESSFUL, 0)
        | .ok _ => (STATUS_SUCCESS, info)
      match WdfRequestForwardToIoQueue Request w.deviceContext.NotificationQueue with
      | .error status => WdfRequestCompleteWithInformation w Request status info
      | .ok queue => { w with deviceContext.NotificationQueue := queue }
  else
    WdfRequestCompleteWithInformation w Request status info

/-! ## The deferred-completion slot as a step relation -/

/-- The events that touch the deferred-completion slot.  `read` is the
framework presenting a Read to `EchoEvtIoRead`, `tick` is the timer calling
`EchoEvtTimerFunc`, `fire` is the cancellation of a request firing, and
`cancel` is the framework calling `EchoEvtRequestCancel`. -/
inductive Step where
  | read (Request : WDFREQUEST) (Length : Nat)
  | tick
  | fire (Handle : Nat)
  | cancel (Request : WDFREQUEST)
  deriving DecidableEq, Repr

/-- The handles of the completed requests, in completion order. -/
def completedHandles (w : World) : List Nat :=
  w.Completed.map (fun c => c.Request.Handle)

/-- The completions recorded for one handle. -/
def completionsOf (w : World) (Handle : Nat) : List Completion :=
  w.Completed.filter (fun c => decide (c.Request.Handle = Handle))

/-- A request the framework may present: its handle belongs to no request
that was completed or that the driver still holds. -/
def fresh (w : World) (Request : WDFREQUEST) : Bool :=
  decide (Request.Handle ∉ completedHandles w) &&
  decide (Request.Handle ∉ w.Cancelable.map (fun r => r.Handle)) &&
  decide (Request.Handle ∉ w.deviceContext.NotificationQueue.Requests.map (fun r => r.Handle))

/-- The cancel callback of `Request` is due: the request is marked cancelable
and its cancellation has fired. -/
def cancelPending (w : World) (Request : WDFREQUEST) : Bool :=
  decide (Request ∈ w.Cancelable) && decide (Request.Handle ∈ w.Cancelled)

/-- Whether the framework can take the step in state `w`.  With
`exclusive = true` a Read is presented only while the slot is empty: this is
what the default queue does, which `EchoQueueInitialize` configures with
`WdfIoQueueDispatchSequential`, so that the next request is presented only once
the previous one has been completed. -/
def allows (exclusive : Bool) (w : World) : Step → Bool
  | .read Request _ =>
    fresh w Request && (!exclusive || w.queueContext.CurrentRequest.isNone)
  | .tick => true
  | .fire _ => true
  | .cancel Request => cancelPending w Request

/-- The effect of one step.  Before it calls the cancel callback the framework
removes the cancelable mark of the request. -/
def applyStep (w : World) : Step → World
  | .read Request Length => EchoEvtIoRead w Request Length
  | .tick => EchoEvtTimerFunc w
  | .fire Handle => { w with Cancelled := Handle :: w.Cancelled }
  | .cancel Request =>
    EchoEvtRequestCancel
      { w with Cancelable := w.Cancelable.filter (fun r => decide (r.Handle ≠ Request.Handle)) }
      Request

/-- Serialized execution of a list of steps; `none` when a step is not admitted. -/
def run (exclusive : Bool) : World → List Step → Option World
  | w, [] => some w
  | w, s :: rest => if allows exclusive w s then run exclusive (applyStep w s) rest else none

/-- A state in which the slot is empty and nothing is outstanding. -/
def Quiescent (w : World) : Prop :=
  w.queueContext.CurrentRequest = none ∧ w.Cancelable = [] ∧ w.Completed = []

/-- The bookkeeping invariant of the slot: no handle is completed twice, no
request that is still marked cancelable has been completed, and the request in
the slot is marked cancelable. -/
def SlotInv (w : World) : Prop :=
  (completedHandles w).Nodup ∧
  (∀ r ∈ w.Cancelable, r.Handle ∉ completedHandles w) ∧
  (∀ r, w.queueContext.CurrentRequest = some r → r ∈ w.Cancelable)

/-- What one allowed step does to the bookkeeping. -/
inductive Effect (w w1 : World) : Prop
  | idle (hC : w1.Completed = w.Completed) (hK : w1.Cancelable = w.Cancelable)
      (hQ : w1.queueContext = w.queueContext) (hX : ∀ h ∈ w.Cancelled, h ∈ w1.Cancelled)
  | answered (c : Completion) (hC : w1.Completed = w.Completed ++ [c])
      (hK : w1.Cancelable = w.Cancelable) (hQ : w1.queueContext = w.queueContext)
      (hX : w1.Cancelled = w.Cancelled)
      (hf1 : c.Request.Handle ∉ completedHandles w)
      (hf2 : ∀ r ∈ w.Cancelable, r.Handle ≠ c.Request.Handle)
  | armed (r : WDFREQUEST) (hC : w1.Completed = w.Completed)
      (hK : w1.Cancelable = w.Cancelable ++ [r])
      (hR : w1.queueContext.CurrentRequest = some r) (hX : w1.Cancelled = w.Cancelled)
      (hf1 : r.Handle ∉ completedHandles w)
  | resolved (r : WDFREQUEST) (c : Completion) (hr : r ∈ w.Cancelable)
      (hc : c.Request.Handle = r.Handle) (hC : w1.Completed = w.Completed ++ [c])
      (hK : w1.Cancelable = w.Cancelable.filter (fun x => decide (x.Handle ≠ r.Handle)))
      (hR : w1.queueContext.CurrentRequest = none) (hX : w1.Cancelled = w.Cancelled)

/-- The invariant of an exclusive run: besides `SlotInv`, the only request that
can be marked cancelable is the one in the slot. -/
def ExclusiveInv (w : World) : Prop :=
  SlotInv w ∧ ∀ x ∈ w.Cancelable, w.queueContext.CurrentRequest = some x

/-- The request `r` sits in the slot with the stored status `S`. -/
def ArmedPhase (r : WDFREQUEST) (S : NTSTATUS) (w : World) : Prop :=
  ExclusiveInv w ∧ w.queueContext.CurrentRequest = some r ∧ w.queueContext.CurrentStatus = S

/-- The request `r` has been completed exactly once, by the tick with the
stored status `S` or by the cancel callback with `STATUS_CANCELLED`. -/
def DonePhase (r : WDFREQUEST) (S : NTSTATUS) (w : World) : Prop :=
  SlotInv w ∧ ∃ c, completionsOf w r.Handle = [c] ∧
    ((c.Status = S ∧ c.Request = r) ∨
     (c.Status = STATUS_CANCELLED ∧ r.Handle ∈ w.Cancelled))

/-! ## Notification delivery -/

/-- What a notify call hands to one parked waiter: the payload when the
waiter's buffer holds `Length` bytes, and nothing otherwise. -/
def delivered (Memory : List Nat) (Length : Nat) (Waiter : WDFREQUEST) : Completion :=
  if Waiter.OutputBuffer.length = 0 ∨ Waiter.OutputBuffer.length < Length then
    ⟨{ Waiter with Information := 0 }, STATUS_SUCCESS, 0⟩
  else
    ⟨{ Waiter with OutputBuffer := Memory.take Length ++ Waiter.OutputBuffer.drop Length
                   Information := Length }, STATUS_SUCCESS, Length⟩

/-- Successive calls of `InvertedNotify`, one per `(Memory, Length)` pair; the
returned statuses are collected in call order. -/
def notifyEach : World → List (List Nat × Nat) → List NTSTATUS × World
  | w, [] => ([], w)
  | w, (Memory, Length) :: rest =>
    let (status, w1) := InvertedNotify w Memory Length
    let (statuses, w2) := notifyEach w1 rest
    (status :: statuses, w2)

/-- The waiters issue `IOCTL_OSR_INVERT_NOTIFICATION` one after the other, each
with the lengths of its own buffers. -/
def awaitEach : World → List WDFREQUEST → World
  | w, [] => w
  | w, Waiter :: rest =>
    awaitEach
      (InvertedEvtIoDeviceControl w Waiter Waiter.OutputBuffer.length Waiter.InputBuffer.length
        IOCTL_OSR_INVERT_NOTIFICATION) rest

/-! ## All entry points of the driver as events -/

/-- Everything that can happen to the driver: the three I/O callbacks of the
default queue, the timer, the cancellation of a request firing, and the
framework calling the cancel callback. -/
inductive Event where
  | read (Request : WDFREQUEST) (Length : Nat)
  | write (Request : WDFREQUEST) (Length : Nat)
  | control (Request : WDFREQUEST) (OutputBufferLength InputBufferLength IoControlCode : Nat)
  | tick
  | fire (Handle : Nat)
  | cancel (Request : WDFREQUEST)
  deriving DecidableEq, Repr

/-- The effect of one event.  The cancel callback is called only for a request
whose cancel callback is due; `none` otherwise, and when the write loop does
not end within its fuel. -/
def deliver (w : World) : Event → Option World
  | .read Request Length => some (EchoEvtIoRead w Request Length)
  | .write Request Length => EchoEvtIoWrite w Request Length
  | .control Request OutputBufferLength InputBufferLength IoControlCode =>
    some (InvertedEvtIoDeviceControl w Request OutputBufferLength InputBufferLength IoControlCode)
  | .tick => some (EchoEvtTimerFunc w)
  | .fire Handle => some { w with Cancelled := Handle :: w.Cancelled }
  | .cancel Request =>
    if cancelPending w Request then some (applyStep w (Step.cancel Request)) else none

/-- Serialized delivery of a list of events. -/
def deliverAll : World → List Event → Option World
  | w, [] => some w
  | w, e :: rest =>
    match deliver w e with
    | none => none
    | some w1 => deliverAll w1 rest

/-- Whether an event is a call of the cancel callback. -/
def Event.isCancel : Event → Bool
  | .cancel _ => true
  | _ => false

/-- The condition of `ASSERT(queueContext->CurrentRequest == Request)` in
`EchoEvtRequestCancel`. -/
def EchoEvtRequestCancel_ASSERT (w : World) (Request : WDFREQUEST) : Bool :=
  decide (w.queueContext.CurrentRequest = some Request)

/-! ## Counting the calls of the write loop -/

/-- The loop of `EchoEvtIoWrite` as in `EchoEvtIoWriteLoop`, returning also the
number of calls of `InvertedNotify` it has made. -/
def EchoEvtIoWriteLoopCounted :
    Nat → World → WDFREQUEST → List Nat → Nat → Option (World × Nat)
  | 0, _, _, _, _ => none
  | fuel + 1, w, Request, memory, Length =>
    let (Status, w) := InvertedNotify w memory Length
    if Status = STATUS_NO_MORE_ENTRIES then
      let Status := STATUS_SUCCESS
      some (WdfRequestComplete w Request Status, 1)
    else if !NT_SUCCESS Status then
      let Request := WdfRequestSetInformation Request Length
      some (WdfRequestComplete w Request Status, 1)
    else
      match EchoEvtIoWriteLoopCounted fuel w Request memory Length with
      | none => none
      | some (w1, calls) => some (w1, calls + 1)

/-- `EchoEvtIoWrite` as above, returning also the number of calls of
`InvertedNotify`. -/
def EchoEvtIoWriteCounted (w : World) (Request : WDFREQUEST) (Length : Nat) :
    Option (World × Nat) :=
  let w := { w with deviceContext.PrivateDeviceData := 0 }
  if Length > MAX_WRITE_LENGTH then
    some (WdfRequestCompleteWithInformation w Request STATUS_BUFFER_OVERFLOW 0, 0)
  else
    match WdfRequestRetrieveInputMemory Request with
    | .error Status => some (WdfRequestComplete w Request Status, 0)
    | .ok memory =>
      let Request := WdfRequestSetInformation Request Length
      EchoEvtIoWriteLoopCounted (w.deviceContext.NotificationQueue.Requests.length + 1)
        w Request memory Length

/-! ## Concrete requests and states used in the examples -/

/-- The five bytes of the string "hello". -/
def helloPayload : List Nat := [104, 101, 108, 108, 111]

/-- A waiter with an eight-byte input buffer and a zeroed output buffer of the
given capacity. -/
def waiterOfCapacity (Handle Capacity : Nat) : WDFREQUEST :=
  ⟨Handle, [0, 0, 0, 0, 0, 0, 0, 0], List.replicate Capacity 0, 0⟩

/-- A Write request carrying the given bytes. -/
def writeRequest (Handle : Nat) (Payload : List Nat) : WDFREQUEST :=
  ⟨Handle, Payload, [], 0⟩

/-- The initial state with the given waiters parked in the notification queue. -/
def parked (Waiters : List WDFREQUEST) : World :=
  { EchoQueueInitialize with deviceContext.NotificationQueue.Requests := Waiters }

/-- The initial state with one stored byte, as if a payload had been kept. -/
def storedByte : World :=
  { EchoQueueInitialize with queueContext.Buffer := some [104], queueContext.Length := 1 }

/-- A Read request with a two-byte output buffer. -/
def readRequest (Handle : Nat) : WDFREQUEST := ⟨Handle, [], [0, 0], 0⟩

/-- The request `readRequest Handle` after `EchoEvtIoRead` has copied the stored
byte into it and set its information field. -/
def armedRequest (Handle : Nat) : WDFREQUEST := ⟨Handle, [], [104, 0], 1⟩

/-- The state `storedByte` with the request in the slot and marked cancelable. -/
def armedWith (Request : WDFREQUEST) : World :=
  { storedByte with
    Cancelable := [Request]
    queueContext.CurrentRequest := some Request
    queueContext.CurrentStatus := STATUS_SUCCESS }

/-- The Read issued by a client with an eight-byte output buffer. -/
def readOfEight (Handle : Nat) : WDFREQUEST := ⟨Handle, [], [0, 0, 0, 0, 0, 0, 0, 0], 0⟩

/-- The wait request as `main` of `echoread.cpp` issues it: no input buffer
and an output buffer of 512 bytes. -/
def echoreadRequest (Handle : Nat) : WDFREQUEST := ⟨Handle, [], List.replicate 512 0, 0⟩

/-- The state `armedWith Request` after the cancellation of `Request` has fired. -/
def armedAndCancelled (Request : WDFREQUEST) : World :=
  { armedWith Request with Cancelled := [Request.Handle] }

/-- The invariant behind C18: nothing is stored, the slot is empty and no
request is marked cancelable. -/
def NothingStored (w : World) : Prop :=
  w.queueContext.Buffer = none ∧ w.queueContext.CurrentRequest = none ∧ w.Cancelable = []

/-! ## Theorems -/

/-! ### InvertedNotify, case by case -/

theorem InvertedNotify_nil (w : World) (Memory : List Nat) (Length : Nat)
    (hq : w.deviceContext.NotificationQueue.Requests = []) :
    InvertedNotify w Memory Length = (STATUS_NO_MORE_ENTRIES, w) := by
  simp [InvertedNotify, WdfIoQueueRetrieveNextRequest, hq]

theorem InvertedNotify_unobtainable (w : World) (Memory : List Nat) (Length : Nat)
    (Waiter : WDFREQUEST) (rest : List WDFREQUEST)
    (hq : w.deviceContext.NotificationQueue.Requests = Waiter :: rest)
    (hcap : Waiter.OutputBuffer.length = 0 ∨ Waiter.OutputBuffer.length < Length) :
    InvertedNotify w Memory Length =
      (STATUS_SUCCESS,
        { w with
          deviceContext.NotificationQueue.Requests := rest
          Completed := w.Completed ++ [⟨{ Waiter with Information := 0 }, STATUS_SUCCESS, 0⟩] }) := by
  simp only [InvertedNotify, WdfIoQueueRetrieveNextRequest, hq, WdfRequestRetrieveOutputBuffer,
    if_pos hcap, WdfRequestCompleteWithInformation, WdfRequestComplete, WdfRequestSetInformation]

theorem InvertedNotify_copy_fails (w : World) (Memory : List Nat) (Length : Nat)
    (Waiter : WDFREQUEST) (rest : List WDFREQUEST)
    (hq : w.deviceContext.NotificationQueue.Requests = Waiter :: rest)
    (hcap : ¬ (Waiter.OutputBuffer.length = 0 ∨ Waiter.OutputBuffer.length < Length))
    (hmem : Memory.length < Length) :
    InvertedNotify w Memory Length =
      (STATUS_BUFFER_TOO_SMALL, { w with deviceContext.NotificationQueue.Requests := rest }) := by
  simp only [InvertedNotify, WdfIoQueueRetrieveNextRequest, hq, WdfRequestRetrieveOutputBuffer,
    if_neg hcap, WdfMemoryCopyToBuffer, Nat.zero_add, if_pos hmem]

theorem InvertedNotify_copies (w : World) (Memory : List Nat) (Length : Nat)
    (Waiter : WDFREQUEST) (rest : List WDFREQUEST)
    (hq : w.deviceContext.NotificationQueue.Requests = Waiter :: rest)
    (hcap : ¬ (Waiter.OutputBuffer.length = 0 ∨ Waiter.OutputBuffer.length < Length))
    (hmem : Length ≤ Memory.length) :
    InvertedNotify w Memory Length =
      (STATUS_SUCCESS,
        { w with
          deviceContext.NotificationQueue.Requests := rest
          Completed := w.Completed ++
            [⟨{ Waiter with
                OutputBuffer := Memory.take Length ++ Waiter.OutputBuffer.drop Length
                Information := Length }, STATUS_SUCCESS, Length⟩] }) := by
  have hmem2 : ¬ Memory.length < Length := Nat.not_lt.mpr hmem
  simp only [InvertedNotify, WdfIoQueueRetrieveNextRequest, hq, WdfRequestRetrieveOutputBuffer,
    if_neg hcap, WdfMemoryCopyToBuffer, Nat.zero_add, if_neg hmem2, List.drop_zero,
    WdfRequestCompleteWithInformation, WdfRequestComplete, WdfRequestSetInformation]

theorem InvertedNotify_delivers (w : World) (Memory : List Nat) (Length : Nat)
    (Waiter : WDFREQUEST) (rest : List WDFREQUEST)
    (hq : w.deviceContext.NotificationQueue.Requests = Waiter :: rest)
    (hmem : Length ≤ Memory.length) :
    InvertedNotify w Memory Length =
      (STATUS_SUCCESS,
        { w with
          deviceContext.NotificationQueue.Requests := rest
          Completed := w.Completed ++ [delivered Memory Length Waiter] }) := by
  by_cases hcap : Waiter.OutputBuffer.length = 0 ∨ Waiter.OutputBuffer.length < Length
  · rw [InvertedNotify_unobtainable w Memory Length Waiter rest hq hcap]
    simp only [delivered, if_pos hcap]
  · rw [InvertedNotify_copies w Memory Length Waiter rest hq hcap hmem]
    simp only [delivered, if_neg hcap]

/-! ### The write loop and repeated calls -/

theorem EchoEvtIoWriteLoop_drains (fuel : Nat) : ∀ (w : World) (Request : WDFREQUEST)
    (memory : List Nat) (Length : Nat), Length ≤ memory.length →
    w.deviceContext.NotificationQueue.Requests.length < fuel →
    EchoEvtIoWriteLoop fuel w Request memory Length =
      some { w with
        deviceContext.NotificationQueue.Requests := []
        Completed := w.Completed ++
          w.deviceContext.NotificationQueue.Requests.map (delivered memory Length) ++
          [⟨Request, STATUS_SUCCESS, Request.Information⟩] } := by
  induction fuel with
  | zero => intro w _ _ _ _ h; exact absurd h (Nat.not_lt_zero _)
  | succ fuel ih =>
    intro w Request memory Length hmem hfuel
    cases hq : w.deviceContext.NotificationQueue.Requests with
    | nil =>
      rw [EchoEvtIoWriteLoop, InvertedNotify_nil w memory Length hq]
      simp only [if_true, WdfRequestComplete, List.map_nil, List.append_nil]
      rw [← hq]
    | cons Waiter rest =>
      rw [EchoEvtIoWriteLoop, InvertedNotify_delivers w memory Length Waiter rest hq hmem]
      have h1 : STATUS_SUCCESS ≠ STATUS_NO_MORE_ENTRIES := by decide
      have h2 : NT_SUCCESS STATUS_SUCCESS = true := by decide
      simp only [if_neg h1, h2, Bool.not_true, Bool.false_eq_true, if_false]
      rw [ih]
      · simp only [List.map_cons, List.append_assoc, List.singleton_append]
      · exact hmem
      · rw [hq] at hfuel
        exact Nat.lt_of_succ_lt_succ hfuel

theorem EchoEvtIoWriteLoop_statuses (fuel : Nat) : ∀ (w : World) (Request : WDFREQUEST)
    (memory : List Nat) (Length : Nat),
    w.deviceContext.NotificationQueue.Requests.length < fuel →
    ∃ w1 new, EchoEvtIoWriteLoop fuel w Request memory Length = some w1 ∧
      w1.Completed = w.Completed ++ new ∧
      ∀ c ∈ new, c.Status = STATUS_SUCCESS ∨ c.Status = STATUS_BUFFER_TOO_SMALL := by
  induction fuel with
  | zero => intro w _ _ _ h; exact absurd h (Nat.not_lt_zero _)
  | succ fuel ih =>
    intro w Request memory Length hfuel
    have h1 : STATUS_SUCCESS ≠ STATUS_NO_MORE_ENTRIES := by decide
    have h2 : NT_SUCCESS STATUS_SUCCESS = true := by decide
    have h3 : STATUS_BUFFER_TOO_SMALL ≠ STATUS_NO_MORE_ENTRIES := by decide
    have h4 : NT_SUCCESS STATUS_BUFFER_TOO_SMALL = false := by decide
    cases hq : w.deviceContext.NotificationQueue.Requests with
    | nil =>
      rw [EchoEvtIoWriteLoop, InvertedNotify_nil w memory Length hq]
      refine ⟨WdfRequestComplete w Request STATUS_SUCCESS,
        [⟨Request, STATUS_SUCCESS, Request.Information⟩], ?_, rfl, ?_⟩
      · simp only [if_true]
      · intro c hc
        rw [List.mem_singleton] at hc
        subst hc
        exact Or.inl rfl
    | cons Waiter rest =>
      have hrest : rest.length < fuel := by
        rw [hq] at hfuel
        exact Nat.lt_of_succ_lt_succ hfuel
      by_cases hcap : Waiter.OutputBuffer.length = 0 ∨ Waiter.OutputBuffer.length < Length
      · rw [EchoEvtIoWriteLoop, InvertedNotify_unobtainable w memory Length Waiter rest hq hcap]
        simp only [if_neg h1, h2, Bool.not_true, Bool.false_eq_true, if_false]
        obtain ⟨w1, new, hrun, hlog, hst⟩ := ih
          { w with
            deviceContext.NotificationQueue.Requests := rest
            Completed := w.Completed ++ [⟨{ Waiter with Information := 0 }, STATUS_SUCCESS, 0⟩] }
          Request memory Length hrest
        refine ⟨w1, ⟨{ Waiter with Information := 0 }, STATUS_SUCCESS, 0⟩ :: new, hrun, ?_, ?_⟩
        · rw [hlog]
          simp only [List.append_assoc, List.singleton_append]
        · intro c hc
          rcases List.mem_cons.mp hc with hc | hc
          · subst hc
            exact Or.inl rfl
          · exact hst c hc
      · by_cases hmem : memory.length < Length
        · rw [EchoEvtIoWriteLoop, InvertedNotify_copy_fails w memory Length Waiter rest hq hcap hmem]
          simp only [if_neg h3, h4, Bool.not_false, if_true]
          refine ⟨_, [⟨WdfRequestSetInformation Request Length, STATUS_BUFFER_TOO_SMALL,
            (WdfRequestSetInformation Request Length).Information⟩], rfl, rfl, ?_⟩
          intro c hc
          rw [List.mem_singleton] at hc
          subst hc
          exact Or.inr rfl
        · rw [EchoEvtIoWriteLoop,
            InvertedNotify_copies w memory Length Waiter rest hq hcap (Nat.not_lt.mp hmem)]
          simp only [if_neg h1, h2, Bool.not_true, Bool.false_eq_true, if_false]
          obtain ⟨w1, new, hrun, hlog, hst⟩ := ih
            { w with
              deviceContext.NotificationQueue.Requests := rest
              Completed := w.Completed ++
                [⟨{ Waiter with
                    OutputBuffer := memory.take Length ++ Waiter.OutputBuffer.drop Length
                    Information := Length }, STATUS_SUCCESS, Length⟩] }
            Request memory Length hrest
          refine ⟨w1, ⟨{ Waiter with
              OutputBuffer := memory.take Length ++ Waiter.OutputBuffer.drop Length
              Information := Length }, STATUS_SUCCESS, Length⟩ :: new, hrun, ?_, ?_⟩
          · rw [hlog]
            simp only [List.append_assoc, List.singleton_append]
          · intro c hc
            rcases List.mem_cons.mp hc with hc | hc
            · subst hc
              exact Or.inl rfl
            · exact hst c hc

theorem awaitEach_parks (Waiters : List WDFREQUEST) : ∀ (w : World),
    w.deviceContext.NotificationQueue.Accepting = true →
    (∀ W ∈ Waiters, 8 ≤ W.InputBuffer.length ∧ 4 ≤ W.OutputBuffer.length) →
    awaitEach w Waiters =
      { w with deviceContext.NotificationQueue.Requests :=
          w.deviceContext.NotificationQueue.Requests ++ Waiters } := by
  induction Waiters with
  | nil =>
    intro w _ _
    simp only [awaitEach, List.append_nil]
  | cons W rest ih =>
    intro w hacc hsz
    have hW := hsz W (List.mem_cons_self _ _)
    have hout : ¬ W.OutputBuffer.length < sizeof_LONG := Nat.not_lt.mpr hW.2
    have hin : ¬ W.InputBuffer.length < sizeof_ULONG * 2 := Nat.not_lt.mpr hW.1
    have hne : IOCTL_OSR_INVERT_NOTIFICATION ≠ IOCTL_ADD_READER := by decide
    rw [awaitEach]
    simp only [InvertedEvtIoDeviceControl, if_neg hne, if_true, if_neg hout, if_neg hin,
      WdfRequestForwardToIoQueue, if_pos hacc]
    rw [ih]
    · simp only [List.append_assoc, List.singleton_append]
    · exact hacc
    · intro V hV
      exact hsz V (List.mem_cons_of_mem _ hV)

theorem notifyEach_delivers (calls : List (List Nat × Nat)) : ∀ (w : World),
    calls.length ≤ w.deviceContext.NotificationQueue.Requests.length →
    (∀ c ∈ calls, c.2 ≤ c.1.length) →
    notifyEach w calls =
      (calls.map (fun _ => STATUS_SUCCESS),
        { w with
          deviceContext.NotificationQueue.Requests :=
            w.deviceContext.NotificationQueue.Requests.drop calls.length
          Completed := w.Completed ++
            List.zipWith (fun c W => delivered c.1 c.2 W) calls
              w.deviceContext.NotificationQueue.Requests }) := by
  induction calls with
  | nil =>
    intro w _ _
    simp only [notifyEach, List.map_nil, List.length_nil, List.drop_zero, List.zipWith_nil_left,
      List.append_nil]
  | cons c rest ih =>
    intro w hlen hmem
    obtain ⟨Memory, Length⟩ := c
    cases hq : w.deviceContext.NotificationQueue.Requests with
    | nil =>
      rw [hq] at hlen
      exact absurd hlen (by simp)
    | cons W others =>
      have hc := hmem (Memory, Length) (List.mem_cons_self _ _)
      rw [notifyEach, InvertedNotify_delivers w Memory Length W others hq hc]
      simp only
      rw [ih]
      · simp only [List.map_cons, List.length_cons, List.drop_succ_cons, List.zipWith_cons_cons,
          List.append_assoc, List.singleton_append]
      · rw [hq] at hlen
        exact Nat.le_of_succ_le_succ hlen
      · intro d hd
        exact hmem d (List.mem_cons_of_mem _ hd)

/-! ### Delivered completions -/

theorem delivered_handle (Memory : List Nat) (Length : Nat) (Waiter : WDFREQUEST) :
    (delivered Memory Length Waiter).Request.Handle = Waiter.Handle ∧
    (delivered Memory Length Waiter).Status = STATUS_SUCCESS := by
  unfold delivered
  split <;> exact ⟨rfl, rfl⟩

theorem delivered_full (Memory : List Nat) (Length : Nat) (Waiter : WDFREQUEST)
    (hmem : Length ≤ Memory.length)
    (hpos : 0 < Waiter.OutputBuffer.length) (hcap : Length ≤ Waiter.OutputBuffer.length) :
    (delivered Memory Length Waiter).Information = Length ∧
    (delivered Memory Length Waiter).Request.OutputBuffer.take Length = Memory.take Length ∧
    (delivered Memory Length Waiter).Request.OutputBuffer.length =
      Waiter.OutputBuffer.length := by
  have hno : ¬ (Waiter.OutputBuffer.length = 0 ∨ Waiter.OutputBuffer.length < Length) := by
    intro h
    rcases h with h | h
    · exact absurd h (Nat.pos_iff_ne_zero.mp hpos)
    · exact absurd hcap (Nat.not_le.mpr h)
  simp only [delivered, if_neg hno]
  have hlen : (List.take Length Memory).length = Length := by
    rw [List.length_take]; exact Nat.min_eq_left hmem
  refine ⟨trivial, ?_, ?_⟩
  · rw [List.take_append_of_le_length (Nat.le_of_eq hlen.symm), List.take_of_length_le]
    exact Nat.le_of_eq hlen
  · rw [List.length_append, hlen, List.length_drop]
    exact Nat.add_sub_cancel' hcap

theorem delivered_nothing (Memory : List Nat) (Length : Nat) (Waiter : WDFREQUEST)
    (hcap : Waiter.OutputBuffer.length < Length) :
    (delivered Memory Length Waiter).Information = 0 ∧
    (delivered Memory Length Waiter).Request.OutputBuffer = Waiter.OutputBuffer := by
  have hyes : Waiter.OutputBuffer.length = 0 ∨ Waiter.OutputBuffer.length < Length := Or.inr hcap
  simp only [delivered, if_pos hyes]
  exact ⟨trivial, trivial⟩

/-! ### The slot: effects of a step and invariants -/

theorem EchoEvtIoRead_cases (w : World) (Request : WDFREQUEST) (Length : Nat) :
    (∃ c, c.Request.Handle = Request.Handle ∧
      EchoEvtIoRead w Request Length = { w with Completed := w.Completed ++ [c] }) ∨
    (∃ r, r.Handle = Request.Handle ∧
      EchoEvtIoRead w Request Length =
        { w with
          Cancelable := w.Cancelable ++ [r]
          queueContext.CurrentRequest := some r
          queueContext.CurrentStatus := STATUS_SUCCESS }) := by
  unfold EchoEvtIoRead
  cases w.queueContext.Buffer with
  | none => exact Or.inl ⟨⟨WdfRequestSetInformation Request 0, STATUS_SUCCESS, 0⟩, rfl, rfl⟩
  | some Buffer =>
    simp only
    cases WdfRequestRetrieveOutputMemory Request with
    | error Status =>
      exact Or.inl ⟨⟨WdfRequestSetInformation Request 0, Status, 0⟩, rfl, rfl⟩
    | ok memory =>
      simp only
      cases WdfMemoryCopyFromBuffer memory 0 Buffer
          (if w.queueContext.Length < Length then w.queueContext.Length else Length) with
      | error Status => exact Or.inl ⟨⟨Request, Status, Request.Information⟩, rfl, rfl⟩
      | ok written =>
        exact Or.inr ⟨WdfRequestSetInformation { Request with OutputBuffer := written }
          (if w.queueContext.Length < Length then w.queueContext.Length else Length), rfl, rfl⟩

theorem EchoEvtTimerFunc_empty (w : World) (h : w.queueContext.CurrentRequest = none) :
    EchoEvtTimerFunc w = w := by
  simp only [EchoEvtTimerFunc, h]

theorem EchoEvtTimerFunc_cancelled (w : World) (r : WDFREQUEST)
    (h : w.queueContext.CurrentRequest = some r) (hx : r.Handle ∈ w.Cancelled) :
    EchoEvtTimerFunc w = w := by
  simp only [EchoEvtTimerFunc, h, WdfRequestUnmarkCancelable, if_pos hx, ne_eq, not_true,
    if_false]

theorem EchoEvtTimerFunc_completes (w : World) (r : WDFREQUEST)
    (h : w.queueContext.CurrentRequest = some r) (hx : r.Handle ∉ w.Cancelled) :
    EchoEvtTimerFunc w =
      { w with
        Cancelable := w.Cancelable.filter (fun x => decide (x.Handle ≠ r.Handle))
        queueContext.CurrentRequest := none
        Completed := w.Completed ++ [⟨r, w.queueContext.CurrentStatus, r.Information⟩] } := by
  have hne : STATUS_SUCCESS ≠ STATUS_CANCELLED := by decide
  simp only [EchoEvtTimerFunc, h, WdfRequestUnmarkCancelable, if_neg hx, if_pos hne,
    WdfRequestComplete]

theorem cancel_step_eq (w : World) (r : WDFREQUEST) :
    applyStep w (.cancel r) =
      { w with
        Cancelable := w.Cancelable.filter (fun x => decide (x.Handle ≠ r.Handle))
        queueContext.CurrentRequest := none
        Completed := w.Completed ++ [⟨{ r with Information := 0 }, STATUS_CANCELLED, 0⟩] } := by
  simp only [applyStep, EchoEvtRequestCancel, WdfRequestCompleteWithInformation,
    WdfRequestComplete, WdfRequestSetInformation]

theorem step_effect (exclusive : Bool) (w : World) (s : Step) (hinv : SlotInv w)
    (hadm : allows exclusive w s = true) : Effect w (applyStep w s) := by
  cases s with
  | read Request Length =>
    simp only [allows, fresh, Bool.and_eq_true, decide_eq_true_eq] at hadm
    obtain ⟨⟨⟨hf1, hf2⟩, _⟩, _⟩ := hadm
    have hf2b : ∀ r ∈ w.Cancelable, r.Handle ≠ Request.Handle := by
      intro r hr heq
      exact hf2 (List.mem_map.mpr ⟨r, hr, heq⟩)
    rcases EchoEvtIoRead_cases w Request Length with ⟨c, hc, heq⟩ | ⟨r, hr, heq⟩
    · simp only [applyStep]
      rw [heq]
      exact Effect.answered c rfl rfl rfl rfl (by rw [hc]; exact hf1)
        (by rw [hc]; exact hf2b)
    · simp only [applyStep]
      rw [heq]
      exact Effect.armed r rfl rfl rfl rfl (by rw [hr]; exact hf1)
  | tick =>
    simp only [applyStep]
    cases hcur : w.queueContext.CurrentRequest with
    | none =>
      rw [EchoEvtTimerFunc_empty w hcur]
      exact Effect.idle rfl rfl rfl (fun _ h => h)
    | some r =>
      by_cases hx : r.Handle ∈ w.Cancelled
      · rw [EchoEvtTimerFunc_cancelled w r hcur hx]
        exact Effect.idle rfl rfl rfl (fun _ h => h)
      · rw [EchoEvtTimerFunc_completes w r hcur hx]
        exact Effect.resolved r _ (hinv.2.2 r hcur) rfl rfl rfl rfl rfl
  | fire Handle =>
    simp only [applyStep]
    exact Effect.idle rfl rfl rfl (fun _ h => List.mem_cons_of_mem _ h)
  | cancel r =>
    simp only [allows, cancelPending, Bool.and_eq_true, decide_eq_true_eq] at hadm
    rw [cancel_step_eq]
    exact Effect.resolved r _ hadm.1 rfl rfl rfl rfl rfl

theorem completedHandles_append (w w1 : World) (c : Completion)
    (hC : w1.Completed = w.Completed ++ [c]) :
    completedHandles w1 = completedHandles w ++ [c.Request.Handle] := by
  simp only [completedHandles, hC, List.map_append, List.map_cons, List.map_nil]

theorem nodup_snoc {l : List Nat} {a : Nat} (hl : l.Nodup) (ha : a ∉ l) : (l ++ [a]).Nodup := by
  rw [List.nodup_append]
  refine ⟨hl, List.nodup_singleton a, ?_⟩
  intro x hx hx2
  rw [List.mem_singleton] at hx2
  subst hx2
  exact ha hx

theorem effect_preserves (w w1 : World) (hinv : SlotInv w) (heff : Effect w w1) :
    SlotInv w1 := by
  obtain ⟨h1, h2, h3⟩ := hinv
  cases heff with
  | idle hC hK hQ hX =>
    refine ⟨?_, ?_, ?_⟩
    · simp only [completedHandles, hC]; exact h1
    · intro r hr
      rw [hK] at hr
      simp only [completedHandles, hC]
      exact h2 r hr
    · intro r hr
      rw [hQ] at hr
      rw [hK]
      exact h3 r hr
  | answered c hC hK hQ hX hf1 hf2 =>
    refine ⟨?_, ?_, ?_⟩
    · rw [completedHandles_append w w1 c hC]
      exact nodup_snoc h1 hf1
    · intro r hr
      rw [hK] at hr
      rw [completedHandles_append w w1 c hC, List.mem_append, List.mem_singleton]
      intro h
      rcases h with h | h
      · exact h2 r hr h
      · exact hf2 r hr h
    · intro r hr
      rw [hQ] at hr
      rw [hK]
      exact h3 r hr
  | armed r hC hK hR hX hf1 =>
    refine ⟨?_, ?_, ?_⟩
    · simp only [completedHandles, hC]; exact h1
    · intro x hx
      rw [hK, List.mem_append, List.mem_singleton] at hx
      simp only [completedHandles, hC]
      rcases hx with hx | hx
      · exact h2 x hx
      · subst hx; exact hf1
    · intro x hx
      rw [hR] at hx
      cases hx
      rw [hK]
      exact List.mem_append_right _ (List.mem_singleton_self _)
  | resolved r c hr hc hC hK hR hX =>
    refine ⟨?_, ?_, ?_⟩
    · rw [completedHandles_append w w1 c hC, hc]
      exact nodup_snoc h1 (h2 r hr)
    · intro x hx
      rw [hK, List.mem_filter] at hx
      rw [completedHandles_append w w1 c hC, List.mem_append, List.mem_singleton, hc]
      intro h
      rcases h with h | h
      · exact h2 x hx.1 h
      · exact (of_decide_eq_true hx.2) h
    · intro x hx
      rw [hR] at hx
      cases hx

theorem run_preserves (exclusive : Bool) (tr : List Step) : ∀ (w w1 : World),
    SlotInv w → run exclusive w tr = some w1 → SlotInv w1 := by
  induction tr with
  | nil =>
    intro w w1 hinv hrun
    simp only [run, Option.some.injEq] at hrun
    subst hrun
    exact hinv
  | cons s rest ih =>
    intro w w1 hinv hrun
    by_cases hadm : allows exclusive w s = true
    · simp only [run, hadm, if_true] at hrun
      exact ih _ _ (effect_preserves _ _ hinv (step_effect exclusive w s hinv hadm)) hrun
    · simp only [run, hadm] at hrun
      cases hrun

theorem quiescent_inv (w : World) (h : Quiescent w) : SlotInv w := by
  obtain ⟨hR, hK, hC⟩ := h
  refine ⟨?_, ?_, ?_⟩
  · simp only [completedHandles, hC, List.map_nil]
    exact List.nodup_nil
  · intro r hr
    rw [hK] at hr
    cases hr
  · intro r hr
    rw [hR] at hr
    cases hr

theorem filter_handle_nil (l : List Completion) (h : Nat)
    (hn : h ∉ l.map (fun c => c.Request.Handle)) :
    l.filter (fun c => decide (c.Request.Handle = h)) = [] := by
  rw [List.filter_eq_nil_iff]
  intro c hc hdec
  exact hn (List.mem_map.mpr ⟨c, hc, of_decide_eq_true hdec⟩)

theorem filter_handle_le_one (l : List Completion) (h : Nat)
    (hn : (l.map (fun c => c.Request.Handle)).Nodup) :
    (l.filter (fun c => decide (c.Request.Handle = h))).length ≤ 1 := by
  induction l with
  | nil => simp
  | cons c l ih =>
    rw [List.map_cons, List.nodup_cons] at hn
    by_cases hc : c.Request.Handle = h
    · rw [List.filter_cons_of_pos (by simpa using hc)]
      rw [filter_handle_nil l h (by rw [← hc]; exact hn.1)]
      simp
    · rw [List.filter_cons_of_neg (by simpa using hc)]
      exact ih hn.2

theorem at_most_once_of_inv (w : World) (hinv : SlotInv w) (h : Nat) :
    (completionsOf w h).length ≤ 1 :=
  filter_handle_le_one w.Completed h hinv.1

theorem cancelable_nil_of_empty_slot (w : World) (hinv : ExclusiveInv w)
    (hcur : w.queueContext.CurrentRequest = none) : w.Cancelable = [] := by
  cases hK : w.Cancelable with
  | nil => rfl
  | cons x rest =>
    have h := hinv.2 x (by rw [hK]; exact List.mem_cons_self _ _)
    rw [hcur] at h
    cases h

theorem filter_slot_nil (w : World) (r : WDFREQUEST) (hinv : ExclusiveInv w)
    (hcur : w.queueContext.CurrentRequest = some r) :
    w.Cancelable.filter (fun x => decide (x.Handle ≠ r.Handle)) = [] := by
  rw [List.filter_eq_nil_iff]
  intro x hx hdec
  have h := hinv.2 x hx
  rw [hcur] at h
  cases h
  exact (of_decide_eq_true hdec) rfl

theorem exclusive_step (w : World) (s : Step) (hinv : ExclusiveInv w)
    (hadm : allows true w s = true) : ExclusiveInv (applyStep w s) := by
  refine ⟨effect_preserves _ _ hinv.1 (step_effect true w s hinv.1 hadm), ?_⟩
  cases s with
  | read Request Length =>
    have hnone : w.queueContext.CurrentRequest = none := by
      simp only [allows, Bool.and_eq_true, Bool.not_true, Bool.false_or,
        Option.isNone_iff_eq_none] at hadm
      exact hadm.2
    have hK := cancelable_nil_of_empty_slot w hinv hnone
    rcases EchoEvtIoRead_cases w Request Length with ⟨c, _, heq⟩ | ⟨r, _, heq⟩
    · simp only [applyStep]
      rw [heq]
      intro x hx
      rw [hK] at hx
      cases hx
    · simp only [applyStep]
      rw [heq]
      intro x hx
      have hx2 : x ∈ w.Cancelable ++ [r] := hx
      rw [hK, List.nil_append, List.mem_singleton] at hx2
      subst hx2
      rfl
  | tick =>
    simp only [applyStep]
    cases hcur : w.queueContext.CurrentRequest with
    | none =>
      rw [EchoEvtTimerFunc_empty w hcur]
      exact hinv.2
    | some r =>
      by_cases hx : r.Handle ∈ w.Cancelled
      · rw [EchoEvtTimerFunc_cancelled w r hcur hx]
        exact hinv.2
      · rw [EchoEvtTimerFunc_completes w r hcur hx]
        intro x hx2
        have hx3 : x ∈ w.Cancelable.filter (fun y => decide (y.Handle ≠ r.Handle)) := hx2
        rw [filter_slot_nil w r hinv hcur] at hx3
        cases hx3
  | fire Handle =>
    simp only [applyStep]
    exact hinv.2
  | cancel r =>
    simp only [allows, cancelPending, Bool.and_eq_true, decide_eq_true_eq] at hadm
    rw [cancel_step_eq]
    intro x hx2
    have hx3 : x ∈ w.Cancelable.filter (fun y => decide (y.Handle ≠ r.Handle)) := hx2
    rw [filter_slot_nil w r hinv (hinv.2 r hadm.1)] at hx3
    cases hx3

theorem exclusive_run (tr : List Step) : ∀ (w w1 : World),
    ExclusiveInv w → run true w tr = some w1 → ExclusiveInv w1 := by
  induction tr with
  | nil =>
    intro w w1 hinv hrun
    simp only [run, Option.some.injEq] at hrun
    subst hrun
    exact hinv
  | cons s rest ih =>
    intro w w1 hinv hrun
    by_cases hadm : allows true w s = true
    · simp only [run, hadm, if_true] at hrun
      exact ih _ _ (exclusive_step w s hinv hadm) hrun
    · simp only [run, hadm] at hrun
      cases hrun

theorem quiescent_exclusive (w : World) (h : Quiescent w) : ExclusiveInv w := by
  refine ⟨quiescent_inv w h, ?_⟩
  intro x hx
  rw [h.2.1] at hx
  cases hx

theorem completionsOf_append_ne (w w1 : World) (c : Completion) (h : Nat)
    (hC : w1.Completed = w.Completed ++ [c]) (hne : c.Request.Handle ≠ h) :
    completionsOf w1 h = completionsOf w h := by
  simp only [completionsOf, hC, List.filter_append]
  rw [List.filter_cons_of_neg (by simpa using hne)]
  simp

theorem completionsOf_append_eq (w w1 : World) (c : Completion) (h : Nat)
    (hC : w1.Completed = w.Completed ++ [c]) (heq : c.Request.Handle = h)
    (hnew : h ∉ completedHandles w) :
    completionsOf w1 h = [c] := by
  simp only [completionsOf, hC, List.filter_append]
  rw [filter_handle_nil w.Completed h hnew]
  rw [List.filter_cons_of_pos (by simpa using heq)]
  simp

theorem mem_completedHandles (w : World) (c : Completion) (h : Nat)
    (hc : completionsOf w h = [c]) : h ∈ completedHandles w := by
  have hmem : c ∈ completionsOf w h := by rw [hc]; exact List.mem_singleton_self _
  simp only [completionsOf, List.mem_filter, decide_eq_true_eq] at hmem
  exact List.mem_map.mpr ⟨c, hmem.1, hmem.2⟩

theorem done_effect (r : WDFREQUEST) (S : NTSTATUS) (w w1 : World)
    (hdone : DonePhase r S w) (heff : Effect w w1) : DonePhase r S w1 := by
  obtain ⟨hinv, c, hc, hwho⟩ := hdone
  have hin := mem_completedHandles w c r.Handle hc
  refine ⟨effect_preserves w w1 hinv heff, c, ?_, ?_⟩
  · cases heff with
    | idle hC _ _ _ => simp only [completionsOf, hC]; exact hc
    | answered c1 hC _ _ _ hf1 _ =>
      rw [completionsOf_append_ne w w1 c1 r.Handle hC (fun h => hf1 (h ▸ hin))]
      exact hc
    | armed _ hC _ _ _ _ => simp only [completionsOf, hC]; exact hc
    | resolved r1 c1 hr hc1 hC _ _ _ =>
      rw [completionsOf_append_ne w w1 c1 r.Handle hC
        (fun h => hinv.2.1 r1 hr (by rw [← hc1, h]; exact hin))]
      exact hc
  · rcases hwho with hw | hw
    · exact Or.inl hw
    · refine Or.inr ⟨hw.1, ?_⟩
      cases heff with
      | idle _ _ _ hX => exact hX _ hw.2
      | answered _ _ _ _ hX _ _ => rw [hX]; exact hw.2
      | armed _ _ _ _ hX _ => rw [hX]; exact hw.2
      | resolved _ _ _ _ _ _ _ hX => rw [hX]; exact hw.2

theorem done_run (r : WDFREQUEST) (S : NTSTATUS) (exclusive : Bool) (tr : List Step) :
    ∀ (w w1 : World), DonePhase r S w → run exclusive w tr = some w1 → DonePhase r S w1 := by
  induction tr with
  | nil =>
    intro w w1 hd hrun
    simp only [run, Option.some.injEq] at hrun
    subst hrun
    exact hd
  | cons s rest ih =>
    intro w w1 hd hrun
    by_cases hadm : allows exclusive w s = true
    · simp only [run, hadm, if_true] at hrun
      exact ih _ _ (done_effect r S w _ hd (step_effect exclusive w s hd.1 hadm)) hrun
    · simp only [run, hadm] at hrun
      cases hrun

theorem armed_step (r : WDFREQUEST) (S : NTSTATUS) (w : World) (s : Step)
    (harm : ArmedPhase r S w) (hadm : allows true w s = true) :
    DonePhase r S (applyStep w s) ∨
    (ArmedPhase r S (applyStep w s) ∧
      (∀ h ∈ w.Cancelled, h ∈ (applyStep w s).Cancelled) ∧
      (s = Step.tick → r.Handle ∈ (applyStep w s).Cancelled)) := by
  obtain ⟨hinv, hcur, hst⟩ := harm
  have hnext := exclusive_step w s hinv hadm
  have hrK : r ∈ w.Cancelable := hinv.1.2.2 r hcur
  have hnew : r.Handle ∉ completedHandles w := hinv.1.2.1 r hrK
  cases s with
  | read Request Length =>
    simp only [allows, Bool.and_eq_true, Bool.not_true, Bool.false_or,
      Option.isNone_iff_eq_none] at hadm
    rw [hcur] at hadm
    cases hadm.2
  | tick =>
    by_cases hx : r.Handle ∈ w.Cancelled
    · right
      simp only [applyStep]
      rw [EchoEvtTimerFunc_cancelled w r hcur hx]
      exact ⟨⟨hinv, hcur, hst⟩, fun _ h => h, fun _ => hx⟩
    · left
      refine ⟨hnext.1, ⟨r, S, r.Information⟩, ?_, Or.inl ⟨rfl, rfl⟩⟩
      simp only [applyStep]
      rw [EchoEvtTimerFunc_completes w r hcur hx, ← hst]
      exact completionsOf_append_eq w _ _ r.Handle rfl rfl hnew
  | fire Handle =>
    right
    refine ⟨⟨hnext, hcur, hst⟩, fun _ h => List.mem_cons_of_mem _ h, ?_⟩
    intro h
    cases h
  | cancel r1 =>
    left
    simp only [allows, cancelPending, Bool.and_eq_true, decide_eq_true_eq] at hadm
    have h1 := hinv.2 r1 hadm.1
    rw [hcur] at h1
    cases h1
    refine ⟨hnext.1, ⟨{ r with Information := 0 }, STATUS_CANCELLED, 0⟩, ?_,
      Or.inr ⟨rfl, ?_⟩⟩
    · rw [cancel_step_eq]
      exact completionsOf_append_eq w _ _ r.Handle rfl rfl hnew
    · rw [cancel_step_eq]
      exact hadm.2

theorem armed_run (r : WDFREQUEST) (S : NTSTATUS) (post : List Step) : ∀ (w w2 : World),
    ArmedPhase r S w → run true w post = some w2 →
    DonePhase r S w2 ∨
    (ArmedPhase r S w2 ∧
      ((Step.tick ∈ post ∨ r.Handle ∈ w.Cancelled) → r.Handle ∈ w2.Cancelled)) := by
  induction post with
  | nil =>
    intro w w2 harm hrun
    simp only [run, Option.some.injEq] at hrun
    subst hrun
    right
    refine ⟨harm, ?_⟩
    intro h
    rcases h with h | h
    · cases h
    · exact h
  | cons s rest ih =>
    intro w w2 harm hrun
    by_cases hadm : allows true w s = true
    · simp only [run, hadm, if_true] at hrun
      rcases armed_step r S w s harm hadm with hd | ⟨ha, hmono, htick⟩
      · exact Or.inl (done_run r S true rest _ _ hd hrun)
      · rcases ih _ _ ha hrun with hd | ⟨ha2, himp⟩
        · exact Or.inl hd
        · right
          refine ⟨ha2, ?_⟩
          intro h
          apply himp
          rcases h with h | h
          · rcases List.mem_cons.mp h with h | h
            · exact Or.inr (htick h.symm)
            · exact Or.inl h
          · exact Or.inr (hmono _ h)
    · simp only [run, hadm] at hrun
      cases hrun

/-! ### C1: the deferred-completion slot -/

/-- C1 (exactly-once completion).  Steps are serialized; a Read is presented
with a handle that is not in use; `WdfRequestUnmarkCancelable` reports
`STATUS_CANCELLED` exactly when the cancellation of the request has fired; the
cancel callback runs only for a request that is marked cancelable and whose
cancellation has fired.

* In every reachable state every handle has at most one completion (this part
  holds for either value of `exclusive`).
* Under the sequential dispatch of the default queue (`run true`: a Read is
  presented only while the slot is empty): if `r` is in the slot in a reachable
  state `w1`, and the run continues to `w2` with at least one tick, and in `w2`
  no cancel callback is due for `r`, then `r` has exactly one completion in
  `w2`; it carries either the status stored in the slot (and the request as
  armed) or `STATUS_CANCELLED` (and then the cancellation of `r` has fired). -/
theorem slot_exactly_once :
    (∀ (exclusive : Bool) (w0 : World) (tr : List Step) (w : World),
      Quiescent w0 → run exclusive w0 tr = some w →
      ∀ Handle, (completionsOf w Handle).length ≤ 1) ∧
    (∀ (w0 : World) (pre : List Step) (w1 : World) (r : WDFREQUEST) (post : List Step)
        (w2 : World),
      Quiescent w0 → run true w0 pre = some w1 →
      w1.queueContext.CurrentRequest = some r →
      run true w1 post = some w2 → Step.tick ∈ post → cancelPending w2 r = false →
      ∃ c, completionsOf w2 r.Handle = [c] ∧
        ((c.Status = w1.queueContext.CurrentStatus ∧ c.Request = r) ∨
         (c.Status = STATUS_CANCELLED ∧ r.Handle ∈ w2.Cancelled))) := by
  constructor
  · intro exclusive w0 tr w h0 hrun Handle
    exact at_most_once_of_inv w (run_preserves exclusive tr w0 w (quiescent_inv w0 h0) hrun) Handle
  · intro w0 pre w1 r post w2 h0 hpre harmed hpost htick hdue
    have hinv1 := exclusive_run pre w0 w1 (quiescent_exclusive w0 h0) hpre
    have harm : ArmedPhase r w1.queueContext.CurrentStatus w1 := ⟨hinv1, harmed, rfl⟩
    rcases armed_run r _ post w1 w2 harm hpost with hd | ⟨ha, himp⟩
    · exact hd.2
    · exfalso
      have hx : r.Handle ∈ w2.Cancelled := himp (Or.inl htick)
      have hk : r ∈ w2.Cancelable := ha.1.1.2.2 r ha.2.1
      simp only [cancelPending, hk, hx, decide_True, Bool.and_self] at hdue
      cases hdue

theorem slot_exactly_once_witness :
    (∀ Handle,
      (completionsOf
        { storedByte with
          queueContext.CurrentStatus := STATUS_SUCCESS
          Completed := [⟨armedRequest 1, STATUS_SUCCESS, 1⟩] } Handle).length ≤ 1) ∧
    (∃ c,
      completionsOf
        { storedByte with
          queueContext.CurrentStatus := STATUS_SUCCESS
          Cancelled := [1]
          Completed := [⟨{ armedRequest 1 with Information := 0 }, STATUS_CANCELLED, 0⟩] }
        (armedRequest 1).Handle = [c] ∧
      ((c.Status = (armedWith (armedRequest 1)).queueContext.CurrentStatus ∧
          c.Request = armedRequest 1) ∨
       (c.Status = STATUS_CANCELLED ∧
          (armedRequest 1).Handle ∈
            ({ storedByte with
              queueContext.CurrentStatus := STATUS_SUCCESS
              Cancelled := [1]
              Completed := [⟨{ armedRequest 1 with Information := 0 }, STATUS_CANCELLED, 0⟩] }
              : World).Cancelled))) :=
  ⟨slot_exactly_once.1 true storedByte [Step.read (readRequest 1) 2, Step.tick] _
      ⟨rfl, rfl, rfl⟩ (by decide),
    slot_exactly_once.2 storedByte [Step.read (readRequest 1) 2] (armedWith (armedRequest 1))
      (armedRequest 1) [Step.fire 1, Step.tick, Step.cancel (armedRequest 1), Step.tick] _
      ⟨rfl, rfl, rfl⟩ (by decide) rfl (by decide) (by decide) (by decide)⟩

/-! ### C2 to C5: notification delivery -/

/-- C2 as stated fails: three waiters with output capacities 4, 8 and 5 are
accepted in that order and three notify calls carry the 5-byte payload "hello".
The calls complete the waiters in arrival order, but the first waiter is
completed with 0 bytes and an untouched buffer, not with the payload truncated
to its 4-byte capacity. -/
theorem fifo_truncation_counterexample :
    (notifyEach
        (awaitEach EchoQueueInitialize
          [waiterOfCapacity 1 4, waiterOfCapacity 2 8, waiterOfCapacity 3 5])
        [(helloPayload, 5), (helloPayload, 5), (helloPayload, 5)]).2.Completed =
      [⟨⟨1, [0, 0, 0, 0, 0, 0, 0, 0], [0, 0, 0, 0], 0⟩, STATUS_SUCCESS, 0⟩,
       ⟨⟨2, [0, 0, 0, 0, 0, 0, 0, 0], [104, 101, 108, 108, 111, 0, 0, 0], 5⟩, STATUS_SUCCESS, 5⟩,
       ⟨⟨3, [0, 0, 0, 0, 0, 0, 0, 0], [104, 101, 108, 108, 111], 5⟩, STATUS_SUCCESS, 5⟩] ∧
    helloPayload.take (min 5 4) = [104, 101, 108, 108] ∧
    ([0, 0, 0, 0] : List Nat) ≠ helloPayload.take (min 5 4) := by
  decide

/-- C2, amended (FIFO delivery): waiters accepted by `IOCTL_OSR_INVERT_NOTIFICATION`
in the order `W1..Wn` are parked in that order, and `k ≤ n` successive notify
calls, each with a payload memory holding its `Length` bytes, all return
`STATUS_SUCCESS`, leave `W(k+1)..Wn` parked and add exactly `k` completions, the
`j`-th one for `Wj`.  Each completion has `STATUS_SUCCESS`; a waiter whose
capacity is at least `Length` receives the `Length` payload bytes, and a waiter
with a smaller capacity receives 0 bytes and its buffer is left untouched. -/
theorem fifo_delivery (w : World) (Waiters : List WDFREQUEST) (calls : List (List Nat × Nat))
    (hempty : w.deviceContext.NotificationQueue.Requests = [])
    (hforward : w.deviceContext.NotificationQueue.Accepting = true)
    (hsize : ∀ W ∈ Waiters, 8 ≤ W.InputBuffer.length ∧ 4 ≤ W.OutputBuffer.length)
    (hcalls : calls.length ≤ Waiters.length)
    (hmem : ∀ c ∈ calls, c.2 ≤ c.1.length) :
    notifyEach (awaitEach w Waiters) calls =
      (calls.map (fun _ => STATUS_SUCCESS),
        { w with
          deviceContext.NotificationQueue.Requests := Waiters.drop calls.length
          Completed := w.Completed ++
            List.zipWith (fun c W => delivered c.1 c.2 W) calls Waiters }) ∧
    (∀ c ∈ calls, ∀ W ∈ Waiters,
      (delivered c.1 c.2 W).Request.Handle = W.Handle ∧
      (delivered c.1 c.2 W).Status = STATUS_SUCCESS ∧
      (c.2 ≤ W.OutputBuffer.length →
        (delivered c.1 c.2 W).Information = c.2 ∧
        (delivered c.1 c.2 W).Request.OutputBuffer.take c.2 = c.1.take c.2) ∧
      (W.OutputBuffer.length < c.2 →
        (delivered c.1 c.2 W).Information = 0 ∧
        (delivered c.1 c.2 W).Request.OutputBuffer = W.OutputBuffer)) := by
  constructor
  · rw [awaitEach_parks Waiters w hforward hsize, hempty, List.nil_append]
    rw [notifyEach_delivers calls _ hcalls (fun c hc => hmem c hc)]
  · intro c hc W hW
    have hpos : 0 < W.OutputBuffer.length := Nat.lt_of_lt_of_le (by decide) (hsize W hW).2
    refine ⟨(delivered_handle c.1 c.2 W).1, (delivered_handle c.1 c.2 W).2, ?_, ?_⟩
    · intro hcap
      have h := delivered_full c.1 c.2 W (hmem c hc) hpos hcap
      exact ⟨h.1, h.2.1⟩
    · intro hcap
      exact delivered_nothing c.1 c.2 W hcap

theorem fifo_delivery_witness :
    (notifyEach
        (awaitEach EchoQueueInitialize
          [waiterOfCapacity 1 8, waiterOfCapacity 2 8, waiterOfCapacity 3 8])
        [(helloPayload, 5), (helloPayload, 5), (helloPayload, 5)]).1 =
      [STATUS_SUCCESS, STATUS_SUCCESS, STATUS_SUCCESS] :=
  congrArg Prod.fst
    (fifo_delivery EchoQueueInitialize
      [waiterOfCapacity 1 8, waiterOfCapacity 2 8, waiterOfCapacity 3 8]
      [(helloPayload, 5), (helloPayload, 5), (helloPayload, 5)]
      rfl rfl (by decide) (by decide) (by decide)).1

/-- C3 as stated fails: a 5-byte Write arrives while one waiter with a 4-byte
output buffer is parked.  The write loop completes the waiter with success but
with 0 bytes and an untouched buffer, so the payload is not delivered to it;
the registry is drained and the write completes with success and 5 bytes. -/
theorem write_loop_counterexample :
    EchoEvtIoWrite (parked [waiterOfCapacity 1 4]) (writeRequest 2 helloPayload) 5 =
      some { parked [] with
        Completed :=
          [⟨⟨1, [0, 0, 0, 0, 0, 0, 0, 0], [0, 0, 0, 0], 0⟩, STATUS_SUCCESS, 0⟩,
           ⟨⟨2, helloPayload, [], 5⟩, STATUS_SUCCESS, 5⟩] } ∧
    (4 ≤ (waiterOfCapacity 1 4).OutputBuffer.length ∧
      8 ≤ (waiterOfCapacity 1 4).InputBuffer.length) := by
  decide

/-- C3, amended (write-side driving loop): for a Write of `Length ≤ 512` bytes
whose input memory can be retrieved and holds those `Length` bytes, and any
registry of `n ≥ 0` parked waiters, `EchoEvtIoWrite` returns, completes every
waiter once and in arrival order with `STATUS_SUCCESS` (a waiter whose buffer
holds `Length` bytes gets the payload, a smaller one gets 0 bytes), leaves the
registry empty, and then completes the write exactly once with `STATUS_SUCCESS`
and information `Length`. -/
theorem write_loop_drains (w : World) (Request : WDFREQUEST) (Length : Nat)
    (hlen : Length ≤ 512)
    (hretrieve : 0 < Request.InputBuffer.length)
    (hmem : Length ≤ Request.InputBuffer.length) :
    EchoEvtIoWrite w Request Length =
      some { w with
        deviceContext.PrivateDeviceData := 0
        deviceContext.NotificationQueue.Requests := []
        Completed := w.Completed ++
          w.deviceContext.NotificationQueue.Requests.map
            (delivered Request.InputBuffer Length) ++
          [⟨{ Request with Information := Length }, STATUS_SUCCESS, Length⟩] } := by
  have hlen2 : ¬ Length > MAX_WRITE_LENGTH := Nat.not_lt.mpr hlen
  have hin : ¬ Request.InputBuffer.length = 0 := Nat.pos_iff_ne_zero.mp hretrieve
  simp only [EchoEvtIoWrite, if_neg hlen2, WdfRequestRetrieveInputMemory, if_neg hin]
  rw [EchoEvtIoWriteLoop_drains (w.deviceContext.NotificationQueue.Requests.length + 1)
    { w with deviceContext.PrivateDeviceData := 0 } (WdfRequestSetInformation Request Length)
    Request.InputBuffer Length hmem (Nat.lt_succ_self _)]
  rfl

theorem write_loop_drains_witness :
    EchoEvtIoWrite (parked []) (writeRequest 2 helloPayload) 5 =
      some { parked [] with
        deviceContext.PrivateDeviceData := 0
        deviceContext.NotificationQueue.Requests := []
        Completed := (parked []).Completed ++
          (parked []).deviceContext.NotificationQueue.Requests.map
            (delivered (writeRequest 2 helloPayload).InputBuffer 5) ++
          [⟨{ writeRequest 2 helloPayload with Information := 5 }, STATUS_SUCCESS, 5⟩] } :=
  write_loop_drains (parked []) (writeRequest 2 helloPayload) 5
    (by decide) (by decide) (by decide)

/-- C4 as stated fails: a waiter with a 4-byte output buffer is matched with a
5-byte payload.  The waiter is completed with information 0 and its buffer is
untouched; it does not receive the first `min 5 4 = 4` bytes. -/
theorem truncated_copy_counterexample :
    InvertedNotify (parked [waiterOfCapacity 1 4]) helloPayload 5 =
      (STATUS_SUCCESS,
        { parked [] with
          Completed := [⟨⟨1, [0, 0, 0, 0, 0, 0, 0, 0], [0, 0, 0, 0], 0⟩, STATUS_SUCCESS, 0⟩] }) ∧
    min 5 4 = 4 ∧
    ([0, 0, 0, 0] : List Nat) ≠ helloPayload.take 4 := by
  decide

/-- C4, amended (matched notify): when `InvertedNotify` dequeues a waiter whose
output buffer is obtainable with the minimum size `Length` it asks for (so the
capacity `C` is at least `Length`) and the payload memory holds `Length` bytes,
the first `Length = min Length C` bytes of the waiter's buffer become the
payload bytes, the rest of the buffer is kept, and the waiter is completed once
with `STATUS_SUCCESS` and information `Length`.  A waiter with capacity
`C < Length` is instead completed with `STATUS_SUCCESS`, information 0 and an
untouched buffer. -/
theorem matched_notify (w : World) (Memory : List Nat) (Length : Nat)
    (Waiter : WDFREQUEST) (rest : List WDFREQUEST)
    (hq : w.deviceContext.NotificationQueue.Requests = Waiter :: rest)
    (hmem : Length ≤ Memory.length) :
    (∀ bufferPointer, WdfRequestRetrieveOutputBuffer Waiter Length = .ok bufferPointer →
      InvertedNotify w Memory Length =
        (STATUS_SUCCESS,
          { w with
            deviceContext.NotificationQueue.Requests := rest
            Completed := w.Completed ++
              [⟨{ Waiter with
                  OutputBuffer := Memory.take Length ++ Waiter.OutputBuffer.drop Length
                  Information := Length }, STATUS_SUCCESS, Length⟩] }) ∧
      Length = min Length Waiter.OutputBuffer.length ∧
      (Memory.take Length ++ Waiter.OutputBuffer.drop Length).take Length = Memory.take Length) ∧
    (Waiter.OutputBuffer.length < Length →
      InvertedNotify w Memory Length =
        (STATUS_SUCCESS,
          { w with
            deviceContext.NotificationQueue.Requests := rest
            Completed := w.Completed ++
              [⟨{ Waiter with Information := 0 }, STATUS_SUCCESS, 0⟩] })) := by
  constructor
  · intro bufferPointer hok
    by_cases hcap : Waiter.OutputBuffer.length = 0 ∨ Waiter.OutputBuffer.length < Length
    · simp only [WdfRequestRetrieveOutputBuffer, if_pos hcap] at hok
      cases hok
    · have hle : Length ≤ Waiter.OutputBuffer.length :=
        Nat.not_lt.mp (fun h => hcap (Or.inr h))
      have htake : (List.take Length Memory).length = Length := by
        rw [List.length_take]; exact Nat.min_eq_left hmem
      refine ⟨InvertedNotify_copies w Memory Length Waiter rest hq hcap hmem,
        (Nat.min_eq_left hle).symm, ?_⟩
      rw [List.take_append_of_le_length (Nat.le_of_eq htake.symm), List.take_of_length_le]
      exact Nat.le_of_eq htake
  · intro hsmall
    exact InvertedNotify_unobtainable w Memory Length Waiter rest hq (Or.inr hsmall)

theorem matched_notify_witness :
    InvertedNotify (parked [waiterOfCapacity 1 8]) helloPayload 5 =
      (STATUS_SUCCESS,
        { parked [waiterOfCapacity 1 8] with
          deviceContext.NotificationQueue.Requests := []
          Completed := (parked [waiterOfCapacity 1 8]).Completed ++
            [⟨{ waiterOfCapacity 1 8 with
                OutputBuffer := helloPayload.take 5 ++ (waiterOfCapacity 1 8).OutputBuffer.drop 5
                Information := 5 }, STATUS_SUCCESS, 5⟩] }) :=
  ((matched_notify (parked [waiterOfCapacity 1 8]) helloPayload 5 (waiterOfCapacity 1 8) []
    rfl (by decide)).1 (waiterOfCapacity 1 8).OutputBuffer rfl).1

/-- C5 as stated fails: retrieving the 4-byte output buffer of the dequeued
waiter with minimum size 5 fails, and the waiter is completed with
`STATUS_SUCCESS` (a success status, not a "transfer failed" one); the value
`InvertedNotify` returns is `STATUS_SUCCESS`, the very value it returns when a
waiter with an 8-byte buffer is matched. -/
theorem unobtainable_buffer_counterexample :
    WdfRequestRetrieveOutputBuffer (waiterOfCapacity 1 4) 5 = .error STATUS_BUFFER_TOO_SMALL ∧
    (InvertedNotify (parked [waiterOfCapacity 1 4]) helloPayload 5).2.Completed =
      [⟨waiterOfCapacity 1 4, STATUS_SUCCESS, 0⟩] ∧
    NT_SUCCESS STATUS_SUCCESS = true ∧
    (InvertedNotify (parked [waiterOfCapacity 1 4]) helloPayload 5).1 =
      (InvertedNotify (parked [waiterOfCapacity 1 8]) helloPayload 5).1 := by
  refine ⟨rfl, ?_, ?_, ?_⟩ <;> decide

/-- C5, amended (unobtainable waiter buffer): whenever `InvertedNotify` dequeues
a waiter and retrieving that waiter's output buffer fails, the waiter is
completed exactly once with `STATUS_SUCCESS` and zero bytes, its buffer is left
untouched, and `InvertedNotify` returns `STATUS_SUCCESS`. -/
theorem unobtainable_buffer (w : World) (Memory : List Nat) (Length : Nat)
    (Waiter : WDFREQUEST) (rest : List WDFREQUEST) (status : NTSTATUS)
    (hq : w.deviceContext.NotificationQueue.Requests = Waiter :: rest)
    (hfail : WdfRequestRetrieveOutputBuffer Waiter Length = .error status) :
    InvertedNotify w Memory Length =
      (STATUS_SUCCESS,
        { w with
          deviceContext.NotificationQueue.Requests := rest
          Completed := w.Completed ++
            [⟨{ Waiter with Information := 0 }, STATUS_SUCCESS, 0⟩] }) := by
  by_cases hcap : Waiter.OutputBuffer.length = 0 ∨ Waiter.OutputBuffer.length < Length
  · exact InvertedNotify_unobtainable w Memory Length Waiter rest hq hcap
  · simp only [WdfRequestRetrieveOutputBuffer, if_neg hcap] at hfail
    cases hfail

theorem unobtainable_buffer_witness :
    InvertedNotify (parked [waiterOfCapacity 1 4, waiterOfCapacity 2 8]) helloPayload 5 =
      (STATUS_SUCCESS,
        { parked [waiterOfCapacity 1 4, waiterOfCapacity 2 8] with
          deviceContext.NotificationQueue.Requests := [waiterOfCapacity 2 8]
          Completed := (parked [waiterOfCapacity 1 4, waiterOfCapacity 2 8]).Completed ++
            [⟨{ waiterOfCapacity 1 4 with Information := 0 }, STATUS_SUCCESS, 0⟩] }) :=
  unobtainable_buffer (parked [waiterOfCapacity 1 4, waiterOfCapacity 2 8]) helloPayload 5
    (waiterOfCapacity 1 4) [waiterOfCapacity 2 8] STATUS_BUFFER_TOO_SMALL rfl rfl

/-! ### C6 to C10: drain, bounds and register-reader -/

/-- C6 (drain semantics): when the notification registry is empty,
`InvertedNotify` returns `STATUS_NO_MORE_ENTRIES` and the state it leaves is
the state it was given: no completion is logged, and the registry, the slot
(`CurrentRequest`, `CurrentStatus`) and the stored buffer are unchanged. -/
theorem drain_semantics (w : World) (Memory : List Nat) (Length : Nat)
    (hempty : w.deviceContext.NotificationQueue.Requests = []) :
    (InvertedNotify w Memory Length).1 = STATUS_NO_MORE_ENTRIES ∧
    (InvertedNotify w Memory Length).2 = w ∧
    (InvertedNotify w Memory Length).2.Completed = w.Completed ∧
    (InvertedNotify w Memory Length).2.deviceContext.NotificationQueue =
      w.deviceContext.NotificationQueue ∧
    (InvertedNotify w Memory Length).2.queueContext = w.queueContext := by
  rw [InvertedNotify_nil w Memory Length hempty]
  exact ⟨rfl, rfl, rfl, rfl, rfl⟩

theorem drain_semantics_witness :
    EchoQueueInitialize.deviceContext.NotificationQueue.Requests = [] ∧
    (InvertedNotify EchoQueueInitialize helloPayload 5).1 = STATUS_NO_MORE_ENTRIES ∧
    (InvertedNotify EchoQueueInitialize helloPayload 5).2 = EchoQueueInitialize :=
  ⟨rfl, (drain_semantics EchoQueueInitialize helloPayload 5 rfl).1,
    (drain_semantics EchoQueueInitialize helloPayload 5 rfl).2.1⟩

/-- C7 (AwaitNotification bounds): an `IOCTL_OSR_INVERT_NOTIFICATION` request
whose input buffer is shorter than 8 bytes or whose output buffer is shorter
than 4 bytes is completed on the spot: exactly one record is added to the
completion log, with `STATUS_INVALID_PARAMETER` and zero bytes, and nothing
else of the state changes (the request is not parked, the slot is untouched). -/
theorem await_notification_bounds (w : World) (Request : WDFREQUEST)
    (OutputBufferLength InputBufferLength : Nat)
    (hshort : InputBufferLength < 8 ∨ OutputBufferLength < 4) :
    InvertedEvtIoDeviceControl w Request OutputBufferLength InputBufferLength
        IOCTL_OSR_INVERT_NOTIFICATION =
      { w with Completed := w.Completed ++
          [⟨{ Request with Information := 0 }, STATUS_INVALID_PARAMETER, 0⟩] } := by
  have hne : IOCTL_OSR_INVERT_NOTIFICATION ≠ IOCTL_ADD_READER := by decide
  by_cases hout : OutputBufferLength < sizeof_LONG
  · simp only [InvertedEvtIoDeviceControl, if_neg hne, if_true, if_pos hout,
      WdfRequestCompleteWithInformation, WdfRequestComplete, WdfRequestSetInformation]
  · have hin : InputBufferLength < sizeof_ULONG * 2 := by
      rcases hshort with h | h
      · exact h
      · exact absurd h hout
    simp only [InvertedEvtIoDeviceControl, if_neg hne, if_true, if_neg hout, if_pos hin,
      WdfRequestCompleteWithInformation, WdfRequestComplete, WdfRequestSetInformation]

theorem await_notification_bounds_witness :
    ((6 : Nat) < 8 ∨ (512 : Nat) < 4) ∧
    InvertedEvtIoDeviceControl EchoQueueInitialize ⟨1, [1, 2, 3, 4, 5, 6], List.replicate 512 0, 0⟩
        512 6 IOCTL_OSR_INVERT_NOTIFICATION =
      { EchoQueueInitialize with Completed := EchoQueueInitialize.Completed ++
          [⟨{ (⟨1, [1, 2, 3, 4, 5, 6], List.replicate 512 0, 0⟩ : WDFREQUEST) with
              Information := 0 }, STATUS_INVALID_PARAMETER, 0⟩] } :=
  ⟨Or.inl (by decide),
    await_notification_bounds EchoQueueInitialize _ 512 6 (Or.inl (by decide))⟩

/-- C8 (AwaitNotification success): an `IOCTL_OSR_INVERT_NOTIFICATION` request
with at least 8 input bytes and at least 4 output bytes, forwarded to a
notification queue that accepts requests, is appended at the tail of the
registry; the completion log and the rest of the state are unchanged, so the
request stays pending. -/
theorem await_notification_parks (w : World) (Request : WDFREQUEST)
    (OutputBufferLength InputBufferLength : Nat)
    (hin : 8 ≤ InputBufferLength) (hout : 4 ≤ OutputBufferLength)
    (hforward : w.deviceContext.NotificationQueue.Accepting = true) :
    InvertedEvtIoDeviceControl w Request OutputBufferLength InputBufferLength
        IOCTL_OSR_INVERT_NOTIFICATION =
      { w with deviceContext.NotificationQueue.Requests :=
          w.deviceContext.NotificationQueue.Requests ++ [Request] } ∧
    (InvertedEvtIoDeviceControl w Request OutputBufferLength InputBufferLength
        IOCTL_OSR_INVERT_NOTIFICATION).Completed = w.Completed := by
  have hne : IOCTL_OSR_INVERT_NOTIFICATION ≠ IOCTL_ADD_READER := by decide
  have hout2 : ¬ OutputBufferLength < sizeof_LONG := Nat.not_lt.mpr hout
  have hin2 : ¬ InputBufferLength < sizeof_ULONG * 2 := Nat.not_lt.mpr hin
  constructor <;>
  simp only [InvertedEvtIoDeviceControl, if_neg hne, if_true, if_neg hout2, if_neg hin2,
    WdfRequestForwardToIoQueue, if_pos hforward]

theorem await_notification_parks_witness :
    (8 ≤ 8) ∧ (4 ≤ 4) ∧
    InvertedEvtIoDeviceControl (parked [waiterOfCapacity 1 4]) (waiterOfCapacity 2 4) 4 8
        IOCTL_OSR_INVERT_NOTIFICATION =
      { parked [waiterOfCapacity 1 4] with deviceContext.NotificationQueue.Requests :=
          (parked [waiterOfCapacity 1 4]).deviceContext.NotificationQueue.Requests ++
            [waiterOfCapacity 2 4] } :=
  ⟨Nat.le_refl 8, Nat.le_refl 4,
    (await_notification_parks (parked [waiterOfCapacity 1 4]) (waiterOfCapacity 2 4) 4 8
      (Nat.le_refl 8) (Nat.le_refl 4) rfl).1⟩

/-- C9 (write bound): a Write longer than `MAX_WRITE_LENGTH = 512` bytes is
completed exactly once, with `STATUS_BUFFER_OVERFLOW` and zero bytes, and the
notification registry is left as it was (no waiter is dequeued or completed);
a Write of at most 512 bytes always returns and none of the completions it
performs carries `STATUS_BUFFER_OVERFLOW`. -/
theorem write_bound (w : World) (Request : WDFREQUEST) (Length : Nat) :
    (Length > 512 →
      EchoEvtIoWrite w Request Length =
        some { w with
          deviceContext.PrivateDeviceData := 0
          Completed := w.Completed ++
            [⟨{ Request with Information := 0 }, STATUS_BUFFER_OVERFLOW, 0⟩] }) ∧
    (Length ≤ 512 →
      ∃ w1 new, EchoEvtIoWrite w Request Length = some w1 ∧
        w1.Completed = w.Completed ++ new ∧
        ∀ c ∈ new, c.Status ≠ STATUS_BUFFER_OVERFLOW) := by
  have hS : STATUS_SUCCESS ≠ STATUS_BUFFER_OVERFLOW := by decide
  have hT : STATUS_BUFFER_TOO_SMALL ≠ STATUS_BUFFER_OVERFLOW := by decide
  constructor
  · intro hlong
    have hlong2 : Length > MAX_WRITE_LENGTH := hlong
    simp only [EchoEvtIoWrite, if_pos hlong2,
      WdfRequestCompleteWithInformation, WdfRequestComplete, WdfRequestSetInformation]
  · intro hshort
    have hshort2 : ¬ Length > MAX_WRITE_LENGTH := Nat.not_lt.mpr hshort
    by_cases hin : Request.InputBuffer.length = 0
    · refine ⟨WdfRequestComplete { w with deviceContext.PrivateDeviceData := 0 } Request
          STATUS_BUFFER_TOO_SMALL,
        [⟨Request, STATUS_BUFFER_TOO_SMALL, Request.Information⟩], ?_, rfl, ?_⟩
      · simp only [EchoEvtIoWrite, if_neg hshort2, WdfRequestRetrieveInputMemory, if_pos hin,
          WdfRequestComplete]
      · intro c hc
        rw [List.mem_singleton] at hc
        subst hc
        exact hT
    · obtain ⟨w1, new, hrun, hlog, hst⟩ := EchoEvtIoWriteLoop_statuses
        (w.deviceContext.NotificationQueue.Requests.length + 1)
        { w with deviceContext.PrivateDeviceData := 0 }
        (WdfRequestSetInformation Request Length) Request.InputBuffer Length (Nat.lt_succ_self _)
      refine ⟨w1, new, ?_, hlog, ?_⟩
      · simp only [EchoEvtIoWrite, if_neg hshort2, WdfRequestRetrieveInputMemory, if_neg hin]
        exact hrun
      · intro c hc
        rcases hst c hc with h | h
        · rw [h]; exact hS
        · rw [h]; exact hT

theorem write_bound_witness :
    (513 > 512 →
      EchoEvtIoWrite (parked [waiterOfCapacity 1 4]) (writeRequest 2 (List.replicate 513 7)) 513 =
        some { parked [waiterOfCapacity 1 4] with
          deviceContext.PrivateDeviceData := 0
          Completed := (parked [waiterOfCapacity 1 4]).Completed ++
            [⟨{ writeRequest 2 (List.replicate 513 7) with Information := 0 },
              STATUS_BUFFER_OVERFLOW, 0⟩] }) ∧
    (512 ≤ 512 →
      ∃ w1 new, EchoEvtIoWrite (parked []) (writeRequest 2 (List.replicate 512 7)) 512 = some w1 ∧
        w1.Completed = (parked []).Completed ++ new ∧
        ∀ c ∈ new, c.Status ≠ STATUS_BUFFER_OVERFLOW) :=
  ⟨(write_bound (parked [waiterOfCapacity 1 4]) (writeRequest 2 (List.replicate 513 7)) 513).1,
    (write_bound (parked []) (writeRequest 2 (List.replicate 512 7)) 512).2⟩

/-- C10 (RegisterReader), the code at the failing input: an `IOCTL_ADD_READER`
request whose output buffer has 4 bytes is completed twice, both times with
`STATUS_UNSUCCESSFUL` (first by `WdfRequestComplete`, then by the final
`WdfRequestCompleteWithInformation`), and never with
`STATUS_INVALID_PARAMETER`. -/
theorem add_reader_four_byte_output :
    (InvertedEvtIoDeviceControl EchoQueueInitialize ⟨1, [], [0, 0, 0, 0], 0⟩ 4 0
        IOCTL_ADD_READER).Completed =
      [⟨⟨1, [], [0, 0, 0, 0], 0⟩, STATUS_UNSUCCESSFUL, 0⟩,
       ⟨⟨1, [], [0, 0, 0, 0], 0⟩, STATUS_UNSUCCESSFUL, 0⟩] ∧
    STATUS_UNSUCCESSFUL ≠ STATUS_INVALID_PARAMETER := by
  decide

/-! ### Reads, frames of the notification paths, and the event model -/

theorem EchoEvtIoRead_nothing_stored (w : World) (Request : WDFREQUEST) (Length : Nat)
    (hnull : w.queueContext.Buffer = none) :
    EchoEvtIoRead w Request Length =
      { w with Completed := w.Completed ++
          [⟨{ Request with Information := 0 }, STATUS_SUCCESS, 0⟩] } := by
  simp only [EchoEvtIoRead, hnull, WdfRequestCompleteWithInformation, WdfRequestComplete,
    WdfRequestSetInformation]

theorem EchoEvtIoRead_arms (w : World) (Request : WDFREQUEST) (Length : Nat)
    (Buffer : List Nat) (hbuf : w.queueContext.Buffer = some Buffer)
    (hpos : 0 < Request.OutputBuffer.length)
    (hfit : min w.queueContext.Length Length ≤ Request.OutputBuffer.length) :
    EchoEvtIoRead w Request Length =
      { w with
        Cancelable := w.Cancelable ++
          [{ Request with
              OutputBuffer := Buffer.take (min w.queueContext.Length Length) ++
                Request.OutputBuffer.drop (min w.queueContext.Length Length)
              Information := min w.queueContext.Length Length }]
        queueContext.CurrentRequest :=
          some { Request with
              OutputBuffer := Buffer.take (min w.queueContext.Length Length) ++
                Request.OutputBuffer.drop (min w.queueContext.Length Length)
              Information := min w.queueContext.Length Length }
        queueContext.CurrentStatus := STATUS_SUCCESS } := by
  have hlen : (if w.queueContext.Length < Length then w.queueContext.Length else Length) =
      min w.queueContext.Length Length := by
    by_cases h : w.queueContext.Length < Length
    · rw [if_pos h, Nat.min_eq_left (Nat.le_of_lt h)]
    · rw [if_neg h, Nat.min_eq_right (Nat.not_lt.mp h)]
  have h0 : ¬ Request.OutputBuffer.length = 0 := Nat.pos_iff_ne_zero.mp hpos
  have hfit2 : ¬ Request.OutputBuffer.length < 0 + min w.queueContext.Length Length := by
    rw [Nat.zero_add]; exact Nat.not_lt.mpr hfit
  have hfit3 : ¬ Request.OutputBuffer.length < min w.queueContext.Length Length :=
    Nat.not_lt.mpr hfit
  simp only [EchoEvtIoRead, hbuf, hlen, WdfRequestRetrieveOutputMemory, if_neg h0,
    WdfMemoryCopyFromBuffer, if_neg hfit2, if_neg hfit3, WdfRequestSetInformation,
    WdfRequestMarkCancelable, List.take_zero, List.nil_append, Nat.zero_add]

theorem InvertedNotify_frame (w : World) (Memory : List Nat) (Length : Nat) :
    (InvertedNotify w Memory Length).2.queueContext = w.queueContext ∧
    (InvertedNotify w Memory Length).2.Cancelable = w.Cancelable ∧
    (InvertedNotify w Memory Length).2.Cancelled = w.Cancelled := by
  cases hq : w.deviceContext.NotificationQueue.Requests with
  | nil =>
    rw [InvertedNotify_nil w Memory Length hq]
    exact ⟨rfl, rfl, rfl⟩
  | cons Waiter rest =>
    by_cases hcap : Waiter.OutputBuffer.length = 0 ∨ Waiter.OutputBuffer.length < Length
    · rw [InvertedNotify_unobtainable w Memory Length Waiter rest hq hcap]
      exact ⟨rfl, rfl, rfl⟩
    · by_cases hmem : Memory.length < Length
      · rw [InvertedNotify_copy_fails w Memory Length Waiter rest hq hcap hmem]
        exact ⟨rfl, rfl, rfl⟩
      · rw [InvertedNotify_copies w Memory Length Waiter rest hq hcap (Nat.not_lt.mp hmem)]
        exact ⟨rfl, rfl, rfl⟩

theorem InvertedNotify_shrinks (w : World) (Memory : List Nat) (Length : Nat)
    (hgo : (InvertedNotify w Memory Length).1 ≠ STATUS_NO_MORE_ENTRIES) :
    (InvertedNotify w Memory Length).2.deviceContext.NotificationQueue.Requests.length + 1 =
      w.deviceContext.NotificationQueue.Requests.length := by
  cases hq : w.deviceContext.NotificationQueue.Requests with
  | nil =>
    rw [InvertedNotify_nil w Memory Length hq] at hgo
    exact absurd rfl hgo
  | cons Waiter rest =>
    by_cases hcap : Waiter.OutputBuffer.length = 0 ∨ Waiter.OutputBuffer.length < Length
    · rw [InvertedNotify_unobtainable w Memory Length Waiter rest hq hcap]
      rfl
    · by_cases hmem : Memory.length < Length
      · rw [InvertedNotify_copy_fails w Memory Length Waiter rest hq hcap hmem]
        rfl
      · rw [InvertedNotify_copies w Memory Length Waiter rest hq hcap (Nat.not_lt.mp hmem)]
        rfl

theorem EchoEvtIoWriteLoop_frame (fuel : Nat) : ∀ (w : World) (Request : WDFREQUEST)
    (memory : List Nat) (Length : Nat),
    w.deviceContext.NotificationQueue.Requests.length < fuel →
    ∃ w1, EchoEvtIoWriteLoop fuel w Request memory Length = some w1 ∧
      w1.queueContext = w.queueContext ∧ w1.Cancelable = w.Cancelable ∧
      w1.Cancelled = w.Cancelled := by
  induction fuel with
  | zero => intro w _ _ _ h; exact absurd h (Nat.not_lt_zero _)
  | succ fuel ih =>
    intro w Request memory Length hfuel
    obtain ⟨hQ, hK, hX⟩ := InvertedNotify_frame w memory Length
    rw [EchoEvtIoWriteLoop]
    by_cases hend : (InvertedNotify w memory Length).1 = STATUS_NO_MORE_ENTRIES
    · simp only [hend, if_true]
      exact ⟨_, rfl, hQ, hK, hX⟩
    · by_cases hok : NT_SUCCESS (InvertedNotify w memory Length).1 = true
      · simp only [if_neg hend, hok, Bool.not_true, Bool.false_eq_true, if_false]
        have hshrink := InvertedNotify_shrinks w memory Length hend
        have hlt : (InvertedNotify w memory Length).2.deviceContext.NotificationQueue.Requests.length
            < fuel := by omega
        obtain ⟨w1, hrun, hQ1, hK1, hX1⟩ := ih _ Request memory Length hlt
        exact ⟨w1, hrun, hQ1.trans hQ, hK1.trans hK, hX1.trans hX⟩
      · have hbad : NT_SUCCESS (InvertedNotify w memory Length).1 = false := by
          cases h : NT_SUCCESS (InvertedNotify w memory Length).1
          · rfl
          · exact absurd h hok
        simp only [if_neg hend, hbad, Bool.not_false, if_true]
        exact ⟨_, rfl, hQ, hK, hX⟩

theorem EchoEvtIoWrite_frame (w : World) (Request : WDFREQUEST) (Length : Nat) :
    ∃ w1, EchoEvtIoWrite w Request Length = some w1 ∧
      w1.queueContext = w.queueContext ∧ w1.Cancelable = w.Cancelable ∧
      w1.Cancelled = w.Cancelled := by
  unfold EchoEvtIoWrite
  by_cases hlong : Length > MAX_WRITE_LENGTH
  · simp only [if_pos hlong]
    exact ⟨_, rfl, rfl, rfl, rfl⟩
  · simp only [if_neg hlong]
    cases WdfRequestRetrieveInputMemory Request with
    | error Status => exact ⟨_, rfl, rfl, rfl, rfl⟩
    | ok memory =>
      exact EchoEvtIoWriteLoop_frame _ { w with deviceContext.PrivateDeviceData := 0 }
        (WdfRequestSetInformation Request Length) memory Length (Nat.lt_succ_self _)

theorem InvertedEvtIoDeviceControl_frame (w : World) (Request : WDFREQUEST)
    (OutputBufferLength InputBufferLength IoControlCode : Nat) :
    (InvertedEvtIoDeviceControl w Request OutputBufferLength InputBufferLength
      IoControlCode).queueContext = w.queueContext ∧
    (InvertedEvtIoDeviceControl w Request OutputBufferLength InputBufferLength
      IoControlCode).Cancelable = w.Cancelable := by
  unfold InvertedEvtIoDeviceControl
  simp only
  split
  · split
    · exact ⟨rfl, rfl⟩
    · split <;> split <;> exact ⟨rfl, rfl⟩
  · split
    · split
      · exact ⟨rfl, rfl⟩
      · split
        · exact ⟨rfl, rfl⟩
        · split <;> exact ⟨rfl, rfl⟩
    · exact ⟨rfl, rfl⟩

theorem deliver_nothing_stored (w w1 : World) (e : Event) (hinv : NothingStored w)
    (hstep : deliver w e = some w1) : NothingStored w1 := by
  obtain ⟨hB, hR, hK⟩ := hinv
  cases e with
  | read Request Length =>
    simp only [deliver, Option.some.injEq] at hstep
    subst hstep
    rw [EchoEvtIoRead_nothing_stored w Request Length hB]
    exact ⟨hB, hR, hK⟩
  | write Request Length =>
    obtain ⟨w2, hrun, hQ, hK2, _⟩ := EchoEvtIoWrite_frame w Request Length
    simp only [deliver, hrun, Option.some.injEq] at hstep
    subst hstep
    exact ⟨by rw [hQ]; exact hB, by rw [hQ]; exact hR, by rw [hK2]; exact hK⟩
  | control Request OutputBufferLength InputBufferLength IoControlCode =>
    simp only [deliver, Option.some.injEq] at hstep
    subst hstep
    obtain ⟨hQ, hK2⟩ := InvertedEvtIoDeviceControl_frame w Request OutputBufferLength
      InputBufferLength IoControlCode
    exact ⟨by rw [hQ]; exact hB, by rw [hQ]; exact hR, by rw [hK2]; exact hK⟩
  | tick =>
    simp only [deliver, Option.some.injEq] at hstep
    subst hstep
    rw [EchoEvtTimerFunc_empty w hR]
    exact ⟨hB, hR, hK⟩
  | fire Handle =>
    simp only [deliver, Option.some.injEq] at hstep
    subst hstep
    exact ⟨hB, hR, hK⟩
  | cancel Request =>
    have hno : cancelPending w Request = false := by
      simp only [cancelPending, hK, List.not_mem_nil, decide_False, Bool.false_and]
    simp only [deliver, hno, Bool.false_eq_true, if_false] at hstep
    cases hstep

theorem deliverAll_nothing_stored (events : List Event) : ∀ (w w1 : World),
    NothingStored w → deliverAll w events = some w1 → NothingStored w1 := by
  induction events with
  | nil =>
    intro w w1 hinv hrun
    simp only [deliverAll, Option.some.injEq] at hrun
    subst hrun
    exact hinv
  | cons e rest ih =>
    intro w w1 hinv hrun
    cases hstep : deliver w e with
    | none =>
      simp only [deliverAll, hstep] at hrun
      cases hrun
    | some w2 =>
      simp only [deliverAll, hstep] at hrun
      exact ih w2 w1 (deliver_nothing_stored w w2 e hinv hstep) hrun

theorem deliver_total (w : World) (e : Event) (hne : e.isCancel = false) :
    ∃ w1, deliver w e = some w1 := by
  cases e with
  | read Request Length => exact ⟨_, rfl⟩
  | write Request Length =>
    obtain ⟨w1, hrun, _⟩ := EchoEvtIoWrite_frame w Request Length
    exact ⟨w1, hrun⟩
  | control Request OutputBufferLength InputBufferLength IoControlCode => exact ⟨_, rfl⟩
  | tick => exact ⟨_, rfl⟩
  | fire Handle => exact ⟨_, rfl⟩
  | cancel Request => cases hne

theorem deliverAll_total (events : List Event) : ∀ (w : World),
    (∀ e ∈ events, e.isCancel = false) → ∃ w1, deliverAll w events = some w1 := by
  induction events with
  | nil => intro w _; exact ⟨w, rfl⟩
  | cons e rest ih =>
    intro w hne
    obtain ⟨w2, hstep⟩ := deliver_total w e (hne e (List.mem_cons_self _ _))
    obtain ⟨w1, hrun⟩ := ih w2 (fun x hx => hne x (List.mem_cons_of_mem _ hx))
    exact ⟨w1, by simp only [deliverAll, hstep]; exact hrun⟩

theorem EchoEvtIoWriteLoopCounted_spec (fuel : Nat) : ∀ (w : World) (Request : WDFREQUEST)
    (memory : List Nat) (Length : Nat),
    w.deviceContext.NotificationQueue.Requests.length < fuel →
    ∃ w1 calls, EchoEvtIoWriteLoopCounted fuel w Request memory Length = some (w1, calls) ∧
      EchoEvtIoWriteLoop fuel w Request memory Length = some w1 ∧
      1 ≤ calls ∧
      calls ≤ w.deviceContext.NotificationQueue.Requests.length + 1 ∧
      (Length ≤ memory.length →
        calls = w.deviceContext.NotificationQueue.Requests.length + 1) := by
  induction fuel with
  | zero => intro w _ _ _ h; exact absurd h (Nat.not_lt_zero _)
  | succ fuel ih =>
    intro w Request memory Length hfuel
    have h1 : STATUS_SUCCESS ≠ STATUS_NO_MORE_ENTRIES := by decide
    have h2 : NT_SUCCESS STATUS_SUCCESS = true := by decide
    have h3 : STATUS_BUFFER_TOO_SMALL ≠ STATUS_NO_MORE_ENTRIES := by decide
    have h4 : NT_SUCCESS STATUS_BUFFER_TOO_SMALL = false := by decide
    cases hq : w.deviceContext.NotificationQueue.Requests with
    | nil =>
      rw [EchoEvtIoWriteLoopCounted, EchoEvtIoWriteLoop, InvertedNotify_nil w memory Length hq]
      refine ⟨WdfRequestComplete w Request STATUS_SUCCESS, 1, ?_, ?_, Nat.le_refl 1, ?_, ?_⟩
      · simp only [if_true]
      · simp only [if_true]
      · simp only [List.length_nil, Nat.zero_add, Nat.le_refl]
      · intro _
        simp only [List.length_nil, Nat.zero_add]
    | cons Waiter rest =>
      have hrest : rest.length < fuel := by
        rw [hq] at hfuel
        exact Nat.lt_of_succ_lt_succ hfuel
      by_cases hcap : Waiter.OutputBuffer.length = 0 ∨ Waiter.OutputBuffer.length < Length
      · rw [EchoEvtIoWriteLoopCounted, EchoEvtIoWriteLoop,
          InvertedNotify_unobtainable w memory Length Waiter rest hq hcap]
        simp only [if_neg h1, h2, Bool.not_true, Bool.false_eq_true, if_false]
        obtain ⟨w1, calls, hc, hl, hpos, hle, heq⟩ := ih
          { w with
            deviceContext.NotificationQueue.Requests := rest
            Completed := w.Completed ++ [⟨{ Waiter with Information := 0 }, STATUS_SUCCESS, 0⟩] }
          Request memory Length hrest
        refine ⟨w1, calls + 1, ?_, hl, Nat.le_add_left 1 calls, ?_, ?_⟩
        · rw [hc]
        · exact Nat.succ_le_succ hle
        · intro hmem
          exact congrArg (· + 1) (heq hmem)
      · by_cases hmem : memory.length < Length
        · rw [EchoEvtIoWriteLoopCounted, EchoEvtIoWriteLoop,
            InvertedNotify_copy_fails w memory Length Waiter rest hq hcap hmem]
          simp only [if_neg h3, h4, Bool.not_false, if_true]
          refine ⟨_, 1, rfl, rfl, Nat.le_refl 1, Nat.le_add_left 1 _, ?_⟩
          intro hle
          exact absurd hmem (Nat.not_lt.mpr hle)
        · rw [EchoEvtIoWriteLoopCounted, EchoEvtIoWriteLoop,
            InvertedNotify_copies w memory Length Waiter rest hq hcap (Nat.not_lt.mp hmem)]
          simp only [if_neg h1, h2, Bool.not_true, Bool.false_eq_true, if_false]
          obtain ⟨w1, calls, hc, hl, hpos, hle, heq⟩ := ih
            { w with
              deviceContext.NotificationQueue.Requests := rest
              Completed := w.Completed ++
                [⟨{ Waiter with
                    OutputBuffer := memory.take Length ++ Waiter.OutputBuffer.drop Length
                    Information := Length }, STATUS_SUCCESS, Length⟩] }
            Request memory Length hrest
          refine ⟨w1, calls + 1, ?_, hl, Nat.le_add_left 1 calls, ?_, ?_⟩
          · rw [hc]
          · exact Nat.succ_le_succ hle
          · intro hmem2
            exact congrArg (· + 1) (heq hmem2)

/-! ### C11 to C20 -/

/-- C11, the code on two failing paths.  An `IOCTL_ADD_READER` request with a
4-byte output buffer is completed twice.  When the payload copy in
`InvertedNotify` fails, the waiter it has dequeued is gone from the registry and
has no completion at all; the write loop then completes only the write. -/
theorem failure_paths_completion_count :
    (completionsOf
      (InvertedEvtIoDeviceControl EchoQueueInitialize ⟨1, [], [0, 0, 0, 0], 0⟩ 4 0
        IOCTL_ADD_READER) 1).length = 2 ∧
    InvertedNotify (parked [waiterOfCapacity 1 8]) [104, 101] 5 =
      (STATUS_BUFFER_TOO_SMALL, parked []) ∧
    EchoEvtIoWrite (parked [waiterOfCapacity 1 8]) (writeRequest 2 [104, 101]) 5 =
      some { parked [] with
        Completed := [⟨⟨2, [104, 101], [], 5⟩, STATUS_BUFFER_TOO_SMALL, 5⟩] } := by
  decide

/-- C12, the code at the failing input: a successful Write of "hello" is
followed by a Read of 5 bytes and a tick.  The write stores nothing
(`Buffer` stays `NULL`), so the Read is completed at once with success and 0
bytes, the slot is never armed and the tick completes nothing. -/
theorem read_after_write_gets_nothing :
    deliverAll EchoQueueInitialize
        [Event.write (writeRequest 1 helloPayload) 5, Event.read (readOfEight 2) 5, Event.tick] =
      some { EchoQueueInitialize with
        Completed :=
          [⟨⟨1, helloPayload, [], 5⟩, STATUS_SUCCESS, 5⟩,
           ⟨readOfEight 2, STATUS_SUCCESS, 0⟩] } ∧
    EchoQueueInitialize.queueContext.Buffer = none ∧
    EchoQueueInitialize.queueContext.CurrentRequest = none ∧
    min 5 5 ≠ 0 := by
  decide

/-- C13 (Read with nothing stored): when the queue-context `Buffer` is `NULL`,
`EchoEvtIoRead` adds exactly one completion, for the Read, with
`STATUS_SUCCESS` and 0 bytes, and changes nothing else: the request is not
marked cancelable and the slot (`CurrentRequest`, `CurrentStatus`) is as before. -/
theorem read_nothing_stored (w : World) (Request : WDFREQUEST) (Length : Nat)
    (hnull : w.queueContext.Buffer = none) :
    EchoEvtIoRead w Request Length =
      { w with Completed := w.Completed ++
          [⟨{ Request with Information := 0 }, STATUS_SUCCESS, 0⟩] } ∧
    (EchoEvtIoRead w Request Length).Cancelable = w.Cancelable ∧
    (EchoEvtIoRead w Request Length).queueContext = w.queueContext := by
  rw [EchoEvtIoRead_nothing_stored w Request Length hnull]
  exact ⟨rfl, rfl, rfl⟩

theorem read_nothing_stored_witness :
    EchoEvtIoRead EchoQueueInitialize (readOfEight 1) 8 =
      { EchoQueueInitialize with Completed := EchoQueueInitialize.Completed ++
          [⟨{ readOfEight 1 with Information := 0 }, STATUS_SUCCESS, 0⟩] } :=
  (read_nothing_stored EchoQueueInitialize (readOfEight 1) 8 rfl).1

/-- C14 as stated fails: the slot holds request 1, whose cancellation has fired,
so `WdfRequestUnmarkCancelable` reports `STATUS_CANCELLED`.  The tick completes
nothing, but when it returns the slot still holds request 1; it is not empty. -/
theorem tick_leaves_slot_armed :
    (armedAndCancelled (armedRequest 1)).queueContext.CurrentRequest = some (armedRequest 1) ∧
    (WdfRequestUnmarkCancelable (armedAndCancelled (armedRequest 1)) (armedRequest 1)).1 =
      STATUS_CANCELLED ∧
    (EchoEvtTimerFunc (armedAndCancelled (armedRequest 1))).Completed = [] ∧
    (EchoEvtTimerFunc (armedAndCancelled (armedRequest 1))).queueContext.CurrentRequest =
      some (armedRequest 1) ∧
    (EchoEvtTimerFunc (armedAndCancelled (armedRequest 1))).queueContext.CurrentRequest ≠
      none := by
  decide

/-- C14, amended (tick when cancellation wins): when the slot holds `r` and
`WdfRequestUnmarkCancelable` reports `STATUS_CANCELLED`, `EchoEvtTimerFunc`
returns the state unchanged: it completes nothing and the slot still holds `r`.
The slot becomes empty when the cancel callback runs, which completes `r` with
`STATUS_CANCELLED` and 0 bytes. -/
theorem tick_when_cancelled (w : World) (r : WDFREQUEST)
    (harm : w.queueContext.CurrentRequest = some r)
    (hunmark : (WdfRequestUnmarkCancelable w r).1 = STATUS_CANCELLED) :
    EchoEvtTimerFunc w = w ∧
    (EchoEvtTimerFunc w).Completed = w.Completed ∧
    (EchoEvtTimerFunc w).queueContext.CurrentRequest = some r ∧
    (applyStep (EchoEvtTimerFunc w) (Step.cancel r)).queueContext.CurrentRequest = none ∧
    (applyStep (EchoEvtTimerFunc w) (Step.cancel r)).Completed =
      w.Completed ++ [⟨{ r with Information := 0 }, STATUS_CANCELLED, 0⟩] := by
  have hx : r.Handle ∈ w.Cancelled := by
    by_cases h : r.Handle ∈ w.Cancelled
    · exact h
    · simp only [WdfRequestUnmarkCancelable, if_neg h] at hunmark
      exact absurd hunmark (by decide)
  rw [EchoEvtTimerFunc_cancelled w r harm hx, cancel_step_eq]
  exact ⟨rfl, rfl, harm, rfl, rfl⟩

theorem tick_when_cancelled_witness :
    EchoEvtTimerFunc (armedAndCancelled (armedRequest 1)) = armedAndCancelled (armedRequest 1) :=
  (tick_when_cancelled (armedAndCancelled (armedRequest 1)) (armedRequest 1) rfl
    (by decide)).1

/-- C15 as stated fails: request 1 is resolved by the tick, request 2 is then
armed in the empty slot, and its cancellation fires before the next tick.  That
tick completes nothing: request 2 has no completion and is still in the slot. -/
theorem cancelled_before_next_tick :
    run true storedByte
        [Step.read (readRequest 1) 2, Step.tick, Step.read (readRequest 2) 2, Step.fire 2] =
      some { storedByte with
        Cancelable := [armedRequest 2]
        Cancelled := [2]
        queueContext.CurrentRequest := some (armedRequest 2)
        queueContext.CurrentStatus := STATUS_SUCCESS
        Completed := [⟨armedRequest 1, STATUS_SUCCESS, 1⟩] } ∧
    run true storedByte
        [Step.read (readRequest 1) 2, Step.tick, Step.read (readRequest 2) 2, Step.fire 2,
          Step.tick] =
      some { storedByte with
        Cancelable := [armedRequest 2]
        Cancelled := [2]
        queueContext.CurrentRequest := some (armedRequest 2)
        queueContext.CurrentStatus := STATUS_SUCCESS
        Completed := [⟨armedRequest 1, STATUS_SUCCESS, 1⟩] } ∧
    completionsOf
      { storedByte with
        Cancelable := [armedRequest 2]
        Cancelled := [2]
        queueContext.CurrentRequest := some (armedRequest 2)
        queueContext.CurrentStatus := STATUS_SUCCESS
        Completed := [⟨armedRequest 1, STATUS_SUCCESS, 1⟩] } (armedRequest 2).Handle = [] := by
  decide

/-- C15, amended (slot reset): when the slot holds `r` and `r` is resolved - by
the tick completing it (the unmark did not report cancelled) or by the cancel
callback - the slot is empty afterwards.  A Read that then arms (data stored,
output memory obtainable and large enough) stores its own request in the slot
without completing anything.  Let the cancellations of the handles in `fired`
fire before the following tick.  If the cancellation of the new request has not
fired, that tick completes exactly the new request, with `STATUS_SUCCESS`, and
empties the slot again; if it has fired, that tick changes nothing: it
completes no request and the slot still holds the new request. -/
theorem slot_reset (w : World) (r : WDFREQUEST) (w1 : World)
    (harm : w.queueContext.CurrentRequest = some r)
    (hres : (r.Handle ∉ w.Cancelled ∧ w1 = EchoEvtTimerFunc w) ∨
      w1 = applyStep w (Step.cancel r)) :
    w1.queueContext.CurrentRequest = none ∧
    ∀ (Request : WDFREQUEST) (Length : Nat) (Buffer : List Nat) (fired : List Nat),
      w1.queueContext.Buffer = some Buffer →
      0 < Request.OutputBuffer.length →
      min w1.queueContext.Length Length ≤ Request.OutputBuffer.length →
      ∃ armed, armed.Handle = Request.Handle ∧
        (EchoEvtIoRead w1 Request Length).queueContext.CurrentRequest = some armed ∧
        (EchoEvtIoRead w1 Request Length).Completed = w1.Completed ∧
        (Request.Handle ∉ fired ++ w1.Cancelled →
          (EchoEvtTimerFunc
            { EchoEvtIoRead w1 Request Length with
              Cancelled := fired ++ w1.Cancelled }).Completed =
            w1.Completed ++ [⟨armed, STATUS_SUCCESS, armed.Information⟩] ∧
          (EchoEvtTimerFunc
            { EchoEvtIoRead w1 Request Length with
              Cancelled := fired ++ w1.Cancelled }).queueContext.CurrentRequest = none) ∧
        (Request.Handle ∈ fired ++ w1.Cancelled →
          EchoEvtTimerFunc
            { EchoEvtIoRead w1 Request Length with Cancelled := fired ++ w1.Cancelled } =
            { EchoEvtIoRead w1 Request Length with Cancelled := fired ++ w1.Cancelled } ∧
          ({ EchoEvtIoRead w1 Request Length with
              Cancelled := fired ++ w1.Cancelled } : World).queueContext.CurrentRequest =
            some armed) := by
  constructor
  · rcases hres with ⟨hx, hw⟩ | hw
    · rw [hw, EchoEvtTimerFunc_completes w r harm hx]
    · rw [hw, cancel_step_eq]
  · intro Request Length Buffer fired hbuf hpos hfit
    have harms := EchoEvtIoRead_arms w1 Request Length Buffer hbuf hpos hfit
    have hcur : ({ EchoEvtIoRead w1 Request Length with
        Cancelled := fired ++ w1.Cancelled } : World).queueContext.CurrentRequest =
        some { Request with
          OutputBuffer := Buffer.take (min w1.queueContext.Length Length) ++
            Request.OutputBuffer.drop (min w1.queueContext.Length Length)
          Information := min w1.queueContext.Length Length } := by
      rw [harms]
    have hlog : (EchoEvtIoRead w1 Request Length).Completed = w1.Completed := by
      rw [harms]
    refine ⟨{ Request with
        OutputBuffer := Buffer.take (min w1.queueContext.Length Length) ++
          Request.OutputBuffer.drop (min w1.queueContext.Length Length)
        Information := min w1.queueContext.Length Length }, rfl, hcur, hlog, ?_, ?_⟩
    · intro hx
      rw [EchoEvtTimerFunc_completes
        { EchoEvtIoRead w1 Request Length with Cancelled := fired ++ w1.Cancelled }
        { Request with
          OutputBuffer := Buffer.take (min w1.queueContext.Length Length) ++
            Request.OutputBuffer.drop (min w1.queueContext.Length Length)
          Information := min w1.queueContext.Length Length } hcur hx]
      refine ⟨?_, rfl⟩
      show (EchoEvtIoRead w1 Request Length).Completed ++ _ = _
      rw [hlog]
      rw [harms]
    · intro hx
      exact ⟨EchoEvtTimerFunc_cancelled
        { EchoEvtIoRead w1 Request Length with Cancelled := fired ++ w1.Cancelled }
        { Request with
          OutputBuffer := Buffer.take (min w1.queueContext.Length Length) ++
            Request.OutputBuffer.drop (min w1.queueContext.Length Length)
          Information := min w1.queueContext.Length Length } hcur hx, hcur⟩

theorem slot_reset_witness :
    (EchoEvtTimerFunc (armedWith (armedRequest 1))).queueContext.CurrentRequest = none ∧
    (EchoEvtTimerFunc
      { EchoEvtIoRead (EchoEvtTimerFunc (armedWith (armedRequest 1))) (readRequest 2) 2 with
        Cancelled := [] ++ (EchoEvtTimerFunc (armedWith (armedRequest 1))).Cancelled }).Completed =
      [⟨armedRequest 1, STATUS_SUCCESS, 1⟩, ⟨armedRequest 2, STATUS_SUCCESS, 1⟩] ∧
    EchoEvtTimerFunc
      { EchoEvtIoRead (EchoEvtTimerFunc (armedWith (armedRequest 1))) (readRequest 2) 2 with
        Cancelled := [2] ++ (EchoEvtTimerFunc (armedWith (armedRequest 1))).Cancelled } =
      { EchoEvtIoRead (EchoEvtTimerFunc (armedWith (armedRequest 1))) (readRequest 2) 2 with
        Cancelled := [2] ++ (EchoEvtTimerFunc (armedWith (armedRequest 1))).Cancelled } := by
  have hreset := slot_reset (armedWith (armedRequest 1)) (armedRequest 1)
    (EchoEvtTimerFunc (armedWith (armedRequest 1))) rfl (Or.inl ⟨by decide, rfl⟩)
  obtain ⟨a1, _, hcur1, _, hgo1, _⟩ :=
    hreset.2 (readRequest 2) 2 [104] [] rfl (by decide) (by decide)
  obtain ⟨a2, _, _, _, _, hstay2⟩ :=
    hreset.2 (readRequest 2) 2 [104] [2] rfl (by decide) (by decide)
  have ha1 : a1 = armedRequest 2 := by
    have h : some a1 = some (armedRequest 2) := hcur1.symm.trans (by decide)
    exact Option.some.inj h
  refine ⟨hreset.1, ?_, (hstay2 (by decide)).1⟩
  rw [(hgo1 (by decide)).1, ha1]
  decide

/-- C16, the code at the client's input: the `IOCTL_OSR_INVERT_NOTIFICATION`
request of `echoread` (input length 0, output length 512) is completed on the
spot with `STATUS_INVALID_PARAMETER` and 0 bytes, and the notification registry
stays empty: the request is not parked. -/
theorem echoread_request_rejected :
    InvertedEvtIoDeviceControl EchoQueueInitialize (echoreadRequest 1) 512 0
        IOCTL_OSR_INVERT_NOTIFICATION =
      { EchoQueueInitialize with
        Completed := [⟨echoreadRequest 1, STATUS_INVALID_PARAMETER, 0⟩] } ∧
    (InvertedEvtIoDeviceControl EchoQueueInitialize (echoreadRequest 1) 512 0
        IOCTL_OSR_INVERT_NOTIFICATION).deviceContext.NotificationQueue.Requests = [] ∧
    (echoreadRequest 1).InputBuffer.length = 0 ∧
    (echoreadRequest 1).OutputBuffer.length = 512 := by
  have hne : IOCTL_OSR_INVERT_NOTIFICATION ≠ IOCTL_ADD_READER := by decide
  have hout : ¬ (512 : Nat) < sizeof_LONG := by decide
  have hin : (0 : Nat) < sizeof_ULONG * 2 := by decide
  have key : ∀ R : WDFREQUEST,
      InvertedEvtIoDeviceControl EchoQueueInitialize R 512 0 IOCTL_OSR_INVERT_NOTIFICATION =
        { EchoQueueInitialize with
          Completed := [⟨{ R with Information := 0 }, STATUS_INVALID_PARAMETER, 0⟩] } := by
    intro R
    simp only [InvertedEvtIoDeviceControl, if_neg hne, if_true, if_neg hout, if_pos hin,
      WdfRequestCompleteWithInformation, WdfRequestComplete, WdfRequestSetInformation]
    rfl
  refine ⟨key _, ?_, rfl, ?_⟩
  · rw [key]
    rfl
  · exact List.length_replicate 512 0

/-- C17 as stated fails: the slot holds request 1 and a Read for request 2
arrives with data stored.  Request 2 is not rejected: no completion is logged,
it is marked cancelable and it replaces request 1 in the slot. -/
theorem rearm_not_rejected :
    (armedWith (armedRequest 1)).queueContext.CurrentRequest = some (armedRequest 1) ∧
    EchoEvtIoRead (armedWith (armedRequest 1)) (readRequest 2) 2 =
      { storedByte with
        Cancelable := [armedRequest 1, armedRequest 2]
        queueContext.CurrentRequest := some (armedRequest 2)
        queueContext.CurrentStatus := STATUS_SUCCESS } ∧
    (EchoEvtIoRead (armedWith (armedRequest 1)) (readRequest 2) 2).Completed = [] ∧
    (EchoEvtIoRead (armedWith (armedRequest 1)) (readRequest 2) 2).queueContext.CurrentRequest ≠
      some (armedRequest 1) := by
  decide

/-- C17, amended (arming an already-armed slot): when the slot holds `r1`, data
is stored, and a Read arrives whose output memory can be obtained and holds the
bytes to copy, `EchoEvtIoRead` does not reject it: it logs no completion, marks
the new request cancelable and stores it in the slot in place of `r1`, together
with its precomputed result; `r1` keeps its cancelable mark. -/
theorem rearm_overwrites (w : World) (r1 Request : WDFREQUEST) (Length : Nat)
    (Buffer : List Nat) (_harm : w.queueContext.CurrentRequest = some r1)
    (hbuf : w.queueContext.Buffer = some Buffer)
    (hpos : 0 < Request.OutputBuffer.length)
    (hfit : min w.queueContext.Length Length ≤ Request.OutputBuffer.length) :
    ∃ armed, armed.Handle = Request.Handle ∧
      armed.Information = min w.queueContext.Length Length ∧
      EchoEvtIoRead w Request Length =
        { w with
          Cancelable := w.Cancelable ++ [armed]
          queueContext.CurrentRequest := some armed
          queueContext.CurrentStatus := STATUS_SUCCESS } ∧
      (EchoEvtIoRead w Request Length).Completed = w.Completed ∧
      (r1 ∈ w.Cancelable → r1 ∈ (EchoEvtIoRead w Request Length).Cancelable) := by
  refine ⟨{ Request with
      OutputBuffer := Buffer.take (min w.queueContext.Length Length) ++
        Request.OutputBuffer.drop (min w.queueContext.Length Length)
      Information := min w.queueContext.Length Length },
    rfl, rfl, EchoEvtIoRead_arms w Request Length Buffer hbuf hpos hfit, ?_, ?_⟩
  · rw [EchoEvtIoRead_arms w Request Length Buffer hbuf hpos hfit]
  · intro h
    rw [EchoEvtIoRead_arms w Request Length Buffer hbuf hpos hfit]
    exact List.mem_append_left _ h

theorem rearm_overwrites_witness :
    ∃ armed, armed.Handle = (readRequest 2).Handle ∧
      armed.Information = min (armedWith (armedRequest 1)).queueContext.Length 2 ∧
      EchoEvtIoRead (armedWith (armedRequest 1)) (readRequest 2) 2 =
        { armedWith (armedRequest 1) with
          Cancelable := (armedWith (armedRequest 1)).Cancelable ++ [armed]
          queueContext.CurrentRequest := some armed
          queueContext.CurrentStatus := STATUS_SUCCESS } ∧
      (EchoEvtIoRead (armedWith (armedRequest 1)) (readRequest 2) 2).Completed =
        (armedWith (armedRequest 1)).Completed ∧
      (armedRequest 1 ∈ (armedWith (armedRequest 1)).Cancelable →
        armedRequest 1 ∈ (EchoEvtIoRead (armedWith (armedRequest 1)) (readRequest 2) 2).Cancelable) :=
  rearm_overwrites (armedWith (armedRequest 1)) (armedRequest 1) (readRequest 2) 2 [104]
    rfl rfl (by decide) (by decide)


/-- C18 (the stored payload is never set): in every state reachable from
`EchoQueueInitialize` by Read, Write, device-control, tick, cancellation and
cancel-callback events, the queue-context `Buffer` is `NULL` and the slot is
empty, and every Read presented in such a state is completed at once with
`STATUS_SUCCESS` and 0 bytes, leaving the slot empty.  Every sequence of events
without a cancel-callback call does run to a state (the cancel callback is
never due, since no request is ever marked cancelable). -/
theorem payload_never_stored :
    (∀ (events : List Event) (w : World),
      deliverAll EchoQueueInitialize events = some w →
      w.queueContext.Buffer = none ∧ w.queueContext.CurrentRequest = none ∧
      w.Cancelable = [] ∧
      ∀ (Request : WDFREQUEST) (Length : Nat),
        EchoEvtIoRead w Request Length =
          { w with Completed := w.Completed ++
              [⟨{ Request with Information := 0 }, STATUS_SUCCESS, 0⟩] } ∧
        (EchoEvtIoRead w Request Length).queueContext.CurrentRequest = none) ∧
    (∀ (events : List Event), (∀ e ∈ events, e.isCancel = false) →
      ∃ w, deliverAll EchoQueueInitialize events = some w) := by
  constructor
  · intro events w hrun
    have hinv := deliverAll_nothing_stored events EchoQueueInitialize w ⟨rfl, rfl, rfl⟩ hrun
    refine ⟨hinv.1, hinv.2.1, hinv.2.2, ?_⟩
    intro Request Length
    rw [EchoEvtIoRead_nothing_stored w Request Length hinv.1]
    exact ⟨rfl, hinv.2.1⟩
  · intro events hne
    exact deliverAll_total events EchoQueueInitialize hne

theorem payload_never_stored_witness :
    (deliverAll EchoQueueInitialize
        [Event.write (writeRequest 1 helloPayload) 5, Event.read (readOfEight 2) 5,
          Event.control (waiterOfCapacity 3 8) 8 8 IOCTL_OSR_INVERT_NOTIFICATION,
          Event.write (writeRequest 4 helloPayload) 5, Event.tick] =
      some { EchoQueueInitialize with
        Completed :=
          [⟨⟨1, helloPayload, [], 5⟩, STATUS_SUCCESS, 5⟩,
           ⟨readOfEight 2, STATUS_SUCCESS, 0⟩,
           ⟨⟨3, [0, 0, 0, 0, 0, 0, 0, 0], [104, 101, 108, 108, 111, 0, 0, 0], 5⟩,
             STATUS_SUCCESS, 5⟩,
           ⟨⟨4, helloPayload, [], 5⟩, STATUS_SUCCESS, 5⟩] }) ∧
    ({ EchoQueueInitialize with
        Completed :=
          [⟨⟨1, helloPayload, [], 5⟩, STATUS_SUCCESS, 5⟩,
           ⟨readOfEight 2, STATUS_SUCCESS, 0⟩,
           ⟨⟨3, [0, 0, 0, 0, 0, 0, 0, 0], [104, 101, 108, 108, 111, 0, 0, 0], 5⟩,
             STATUS_SUCCESS, 5⟩,
           ⟨⟨4, helloPayload, [], 5⟩, STATUS_SUCCESS, 5⟩] } : World).queueContext.Buffer = none :=
  ⟨by decide,
    (payload_never_stored.1
      [Event.write (writeRequest 1 helloPayload) 5, Event.read (readOfEight 2) 5,
        Event.control (waiterOfCapacity 3 8) 8 8 IOCTL_OSR_INVERT_NOTIFICATION,
        Event.write (writeRequest 4 helloPayload) 5, Event.tick] _ (by decide)).1⟩


/-- C19 (the assertion of the cancel callback): in every state reachable from a
quiescent state by steps in which a Read is presented only while the slot is
empty, whenever the cancel callback is due for `r` (marked cancelable, not
unmarked by a tick, cancellation fired), the slot holds exactly `r`; so
`ASSERT(queueContext->CurrentRequest == Request)` holds where the callback
evaluates it, and after the callback no request is left marked cancelable:
clearing the slot loses no other request. -/
theorem cancel_assert_holds (w0 : World) (tr : List Step) (w : World) (r : WDFREQUEST)
    (h0 : Quiescent w0) (hrun : run true w0 tr = some w)
    (hdue : cancelPending w r = true) :
    w.queueContext.CurrentRequest = some r ∧
    EchoEvtRequestCancel_ASSERT
      (WdfRequestCompleteWithInformation
        { w with Cancelable := w.Cancelable.filter (fun x => decide (x.Handle ≠ r.Handle)) }
        r STATUS_CANCELLED 0) r = true ∧
    (applyStep w (Step.cancel r)).Cancelable = [] ∧
    (applyStep w (Step.cancel r)).queueContext.CurrentRequest = none := by
  have hinv := exclusive_run tr w0 w (quiescent_exclusive w0 h0) hrun
  simp only [cancelPending, Bool.and_eq_true, decide_eq_true_eq] at hdue
  have hcur := hinv.2 r hdue.1
  refine ⟨hcur, ?_, ?_, ?_⟩
  · simp only [EchoEvtRequestCancel_ASSERT, WdfRequestCompleteWithInformation,
      WdfRequestComplete, hcur, decide_True]
  · rw [cancel_step_eq]
    exact filter_slot_nil w r hinv hcur
  · rw [cancel_step_eq]

theorem cancel_assert_holds_witness :
    (armedAndCancelled (armedRequest 1)).queueContext.CurrentRequest = some (armedRequest 1) :=
  (cancel_assert_holds storedByte [Step.read (readRequest 1) 2, Step.fire 1]
    (armedAndCancelled (armedRequest 1)) (armedRequest 1) ⟨rfl, rfl, rfl⟩ (by decide)
    (by decide)).1

/-- C20 (the write-side loop terminates): for a registry of `n` parked waiters
and a Write of `Length ≤ 512`, `EchoEvtIoWrite` returns, and the loop makes at
most `n + 1` calls of `InvertedNotify`; it makes exactly `n + 1` calls when the
input memory is retrieved and holds the `Length` bytes, so that no delivery
fails.  Every call whose status does not end the loop with
`STATUS_NO_MORE_ENTRIES` leaves the registry one request shorter. -/
theorem write_loop_terminates (w : World) (Request : WDFREQUEST) (Length : Nat)
    (hlen : Length ≤ 512) :
    (∃ w1 calls, EchoEvtIoWriteCounted w Request Length = some (w1, calls) ∧
      EchoEvtIoWrite w Request Length = some w1 ∧
      calls ≤ w.deviceContext.NotificationQueue.Requests.length + 1 ∧
      (0 < Request.InputBuffer.length → Length ≤ Request.InputBuffer.length →
        calls = w.deviceContext.NotificationQueue.Requests.length + 1)) ∧
    (∀ (v : World) (Memory : List Nat) (L : Nat),
      (InvertedNotify v Memory L).1 ≠ STATUS_NO_MORE_ENTRIES →
      (InvertedNotify v Memory L).2.deviceContext.NotificationQueue.Requests.length + 1 =
        v.deviceContext.NotificationQueue.Requests.length) := by
  constructor
  · have hlen2 : ¬ Length > MAX_WRITE_LENGTH := Nat.not_lt.mpr hlen
    by_cases hin : Request.InputBuffer.length = 0
    · refine ⟨WdfRequestComplete { w with deviceContext.PrivateDeviceData := 0 } Request
        STATUS_BUFFER_TOO_SMALL, 0, ?_, ?_, Nat.zero_le _, ?_⟩
      · simp only [EchoEvtIoWriteCounted, if_neg hlen2, WdfRequestRetrieveInputMemory, if_pos hin]
      · simp only [EchoEvtIoWrite, if_neg hlen2, WdfRequestRetrieveInputMemory, if_pos hin]
      · intro hpos
        exact absurd hin (Nat.pos_iff_ne_zero.mp hpos)
    · obtain ⟨w1, calls, hc, hl, _, hle, heq⟩ := EchoEvtIoWriteLoopCounted_spec
        (w.deviceContext.NotificationQueue.Requests.length + 1)
        { w with deviceContext.PrivateDeviceData := 0 }
        (WdfRequestSetInformation Request Length) Request.InputBuffer Length (Nat.lt_succ_self _)
      refine ⟨w1, calls, ?_, ?_, hle, ?_⟩
      · simp only [EchoEvtIoWriteCounted, if_neg hlen2, WdfRequestRetrieveInputMemory, if_neg hin]
        exact hc
      · simp only [EchoEvtIoWrite, if_neg hlen2, WdfRequestRetrieveInputMemory, if_neg hin]
        exact hl
      · intro _ hmem
        exact heq hmem
  · intro v Memory L hgo
    exact InvertedNotify_shrinks v Memory L hgo

theorem write_loop_terminates_witness :
    ∃ w1 calls,
      EchoEvtIoWriteCounted (parked [waiterOfCapacity 1 4, waiterOfCapacity 2 8])
        (writeRequest 3 helloPayload) 5 = some (w1, calls) ∧
      EchoEvtIoWrite (parked [waiterOfCapacity 1 4, waiterOfCapacity 2 8])
        (writeRequest 3 helloPayload) 5 = some w1 ∧
      calls ≤
        (parked [waiterOfCapacity 1 4, waiterOfCapacity 2 8]).deviceContext.NotificationQueue.Requests.length
          + 1 ∧
      (0 < (writeRequest 3 helloPayload).InputBuffer.length →
        5 ≤ (writeRequest 3 helloPayload).InputBuffer.length →
        calls =
          (parked [waiterOfCapacity 1 4, waiterOfCapacity 2 8]).deviceContext.NotificationQueue.Requests.length
            + 1) :=
  (write_loop_terminates (parked [waiterOfCapacity 1 4, waiterOfCapacity 2 8])
    (writeRequest 3 helloPayload) 5 (by decide)).1

end Shelby
